import Mathlib

/-!
Shallow embedding of the softimer library (src/softimer.c, src/softimer.h).

Modelling conventions:
* Timer records live in a map `timers : Nat → Stim`; a C `stim_t *` pointer is
  a `Nat` identifier.  Null pointers are not modelled (the C null checks are
  early returns; every theorem below is about non-null timers).
* The intrusive doubly linked active list (sentinel `head`, `stim_node_t`)
  is modelled as the list of timer identifiers in list order, earliest first.
  The C test `node->next != node` ("linked") becomes membership in `active`.
* `uint32_t` tick values (`stim_systicks`, `expiry_ticks`) are kept as
  unbounded `Nat` and reduced mod 2^32 at every point the C code observes
  them (the signed wraparound comparator `sdiff` and the stored-value claims,
  which are stated mod 2^32).  Keeping the unbounded value is what allows the
  spec's side condition "no expiry more than 2^31 ticks in the past" to be
  stated at all; the C-visible state is the image mod 2^32.
* The command ring buffer is modelled verbatim: a slot array `cmdArr`
  indexed by `Nat`, with `cmdHead`/`cmdTail` advanced by `&&& (SIZE - 1)`.
* A user callback is modelled by its behaviour: the list of softimer API
  calls (`stim_start` / `stim_stop` on some timer) it performs when invoked;
  an empty list is a null callback pointer.  `user_data` is opaque to the
  core and is carried by the behaviour list.
* The critical-section hooks are no-ops (the default single-context build),
  so every operation is a pure state transformer.
-/

namespace Softimer

/-- 2^32, the modulus of 32-bit tick arithmetic. -/
def U32 : Nat := 4294967296

/-- 2^31, the threshold used by the signed wraparound comparator. -/
def HALF : Nat := 2147483648

/-- STIM_MAX_TICKS = ((uint32_t)(-1)) >> 1 = 2^31 - 1. -/
def STIM_MAX_TICKS : Nat := 2147483647

/-- STIM_CMD_ARR_SIZE, the size of the command ring buffer array. -/
def STIM_CMD_ARR_SIZE : Nat := 16

/-- The signed 32-bit comparison value (int32_t)(a - b) used by
`stim_list_add` and `stim_handler`: the unsigned 32-bit difference,
reinterpreted as a signed 32-bit integer. -/
def sdiff (a b : Nat) : Int :=
  let d := (a % U32 + U32 - b % U32) % U32
  if d < HALF then (d : Int) else (d : Int) - (U32 : Int)

/-- stim_cmd_type_t. -/
inductive CmdType where
  | none
  | start
  | stop
deriving DecidableEq

/-- stim_cmd_t: one command queue entry. -/
structure Cmd where
  stim : Nat
  type : CmdType
deriving DecidableEq

/-- One API call performed by a user callback body: callbacks are modelled
by the sequence of softimer calls they make. -/
inductive CbAct where
  | start (tid : Nat)
  | stop (tid : Nat)
deriving DecidableEq

/-- stim_t: one timer record.  `state = true` is STIM_ENABLE, `state = false`
is STIM_DISABLE.  The intrusive `node` field is represented by membership in
`SysState.active`. -/
structure Stim where
  cb : List CbAct
  expiry_ticks : Nat
  period_ticks : Nat
  count : Nat
  state : Bool
deriving DecidableEq

/-- The global state of the library: the timer records, the active list
(in list order, sentinel omitted), the command ring buffer and the tick
counter. -/
structure SysState where
  timers : Nat → Stim
  active : List Nat
  cmdArr : Nat → Cmd
  cmdHead : Nat
  cmdTail : Nat
  systicks : Nat

/-- A timer record as left by stim_init before any field is set; also the
content of a timer slot that was never initialized. -/
def initStim : Stim :=
  { cb := [], expiry_ticks := 0, period_ticks := 0, count := 0, state := false }

/-- The initial global state: empty active list, empty command queue,
tick counter 0. -/
def initState : SysState :=
  { timers := fun _ => initStim
    active := []
    cmdArr := fun _ => { stim := 0, type := CmdType.none }
    cmdHead := 0
    cmdTail := 0
    systicks := 0 }

/-- void stim_systick_inc(void). -/
def stim_systick_inc (s : SysState) : SysState :=
  { s with systicks := s.systicks + 1 }

/-- uint32_t stim_get_systicks(void); the C read is the counter mod 2^32,
every consumer of the value is mod-2^32 invariant, so we return the
unbounded counter. -/
def stim_get_systicks (s : SysState) : Nat :=
  s.systicks

/-- int stim_init(stim_t *timer, uint32_t period_ticks, stim_cb_t cb,
void *user_data).  The callback argument carries its behaviour list. -/
def stim_init (s : SysState) (tid : Nat) (period_ticks : Nat) (cb : List CbAct) :
    Int × SysState :=
  if period_ticks > STIM_MAX_TICKS ∨ period_ticks = 0 then (-1, s)
  else
    let rec0 : Stim := { cb := cb, expiry_ticks := 0, period_ticks := period_ticks,
                         count := 0, state := false }
    (0, { s with timers := Function.update s.timers tid rec0 })

/-- The scan-and-splice loop of stim_list_add: walk the list from the
earliest entry and insert `tid` before the first entry whose now-relative
expiry is strictly greater than the new timer's. -/
def listAddAux (timers : Nat → Stim) (texp now : Nat) : List Nat → Nat → List Nat
  | [], tid => [tid]
  | e :: rest, tid =>
    if sdiff texp now < sdiff (timers e).expiry_ticks now then
      tid :: e :: rest
    else
      e :: listAddAux timers texp now rest tid

/-- static void stim_list_add(stim_t *timer, uint32_t now).  The guard
`node->next != node` (already linked) becomes membership in `active`. -/
def stim_list_add (s : SysState) (tid : Nat) (now : Nat) : SysState :=
  if tid ∈ s.active then s
  else { s with active := listAddAux s.timers (s.timers tid).expiry_ticks now s.active tid }

/-- static void stim_list_del(stim_t *timer).  Unlinking is removal from
`active`; the C self-link guard makes deletion of an unlinked timer a no-op,
which `List.erase` also is. -/
def stim_list_del (s : SysState) (tid : Nat) : SysState :=
  { s with active := s.active.erase tid }

/-- static int stim_cmd_push(stim_t *timer, stim_cmd_type_t type). -/
def stim_cmd_push (s : SysState) (tid : Nat) (ty : CmdType) : Int × SysState :=
  let next_head := (s.cmdHead + 1) &&& (STIM_CMD_ARR_SIZE - 1)
  if next_head = s.cmdTail then (-1, s)
  else
    (0, { s with
          cmdArr := Function.update s.cmdArr s.cmdHead { stim := tid, type := ty }
          cmdHead := next_head })

/-- int stim_start(stim_t *timer). -/
def stim_start (s : SysState) (tid : Nat) : Int × SysState :=
  if (s.timers tid).state = true then (0, s)
  else
    let p := stim_cmd_push s tid CmdType.start
    if p.1 = 0 then
      (0, { p.2 with timers := Function.update p.2.timers tid ({ p.2.timers tid with state := true }) })
    else p

/-- int stim_stop(stim_t *timer). -/
def stim_stop (s : SysState) (tid : Nat) : Int × SysState :=
  if (s.timers tid).state = false then (0, s)
  else
    let p := stim_cmd_push s tid CmdType.stop
    if p.1 = 0 then
      (0, { p.2 with timers := Function.update p.2.timers tid ({ p.2.timers tid with state := false }) })
    else p

/-- The body of the switch in stim_cmd_handler: apply one popped command. -/
def applyCmd (s : SysState) (c : Cmd) : SysState :=
  match c.type with
  | CmdType.start =>
    let now := stim_get_systicks s
    let rec1 : Stim := { s.timers c.stim with
                         expiry_ticks := (s.timers c.stim).period_ticks + now }
    let s1 := { s with timers := Function.update s.timers c.stim rec1 }
    stim_list_add s1 c.stim now
  | CmdType.stop => stim_list_del s c.stim
  | CmdType.none => s

/-- static void stim_cmd_handler(void): pop and apply commands until the
ring is empty.  The C while-loop always terminates because at most
STIM_CMD_ARR_SIZE - 1 entries are pending; `fuel` bounds the iteration
count and `stim_handler` passes a fuel that always suffices. -/
def stim_cmd_handler : Nat → SysState → SysState
  | 0, s => s
  | fuel + 1, s =>
    if s.cmdHead = s.cmdTail then s
    else
      let c := s.cmdArr s.cmdTail
      let s1 := { s with cmdTail := (s.cmdTail + 1) &&& (STIM_CMD_ARR_SIZE - 1) }
      stim_cmd_handler fuel (applyCmd s1 c)

/-- Run one API call made by a user callback body. -/
def applyCbAct (s : SysState) (a : CbAct) : SysState :=
  match a with
  | CbAct.start tid => (stim_start s tid).2
  | CbAct.stop tid => (stim_stop s tid).2

/-- Invoke a callback: run the API calls its body performs, in order. -/
def runCb (s : SysState) (acts : List CbAct) : SysState :=
  acts.foldl applyCbAct s

/-- The state of the expiry loop at the moment the expired timer's callback
is invoked: the timer has been unlinked (`stim_list_del`) and its `count`
incremented, nothing else has happened yet. -/
def fireMid (s : SysState) (tid : Nat) : SysState :=
  let s1 := stim_list_del s tid
  { s1 with timers := Function.update s1.timers tid ({ s1.timers tid with count := ((s1.timers tid).count + 1) % U32 }) }

/-- One full iteration of the expiry loop of stim_handler on the expired
timer `tid`: unlink, bump `count`, invoke the callback, and if the timer is
still STIM_ENABLE afterwards, advance `expiry_ticks` by `period_ticks` and
re-insert. -/
def stim_fire (now : Nat) (s : SysState) (tid : Nat) : SysState :=
  let s2 := fireMid s tid
  let s3 := runCb s2 (s2.timers tid).cb
  if (s3.timers tid).state = true then
    let rec2 : Stim := { s3.timers tid with
                         expiry_ticks := (s3.timers tid).expiry_ticks + (s3.timers tid).period_ticks }
    let s4 := { s3 with timers := Function.update s3.timers tid rec2 }
    stim_list_add s4 tid now
  else s3

/-- The expiry while-loop of stim_handler: while the list is non-empty and
the earliest entry has expired, fire it; stop at the first unexpired entry.
`fuel` bounds the number of iterations. -/
def stim_handler_loop : Nat → Nat → SysState → SysState
  | 0, _, s => s
  | fuel + 1, now, s =>
    match s.active with
    | [] => s
    | tid :: _ =>
      if sdiff (s.timers tid).expiry_ticks now ≤ 0 then
        stim_handler_loop fuel now (stim_fire now s tid)
      else s

/-- void stim_handler(void): drain the command queue completely, read `now`
once, then run the expiry loop. -/
def stim_handler (fuel : Nat) (s : SysState) : SysState :=
  let s1 := stim_cmd_handler STIM_CMD_ARR_SIZE s
  stim_handler_loop fuel (stim_get_systicks s1) s1

/-- void stim_register_callback(stim_t *timer, stim_cb_t cb, void *user_data). -/
def stim_register_callback (s : SysState) (tid : Nat) (cb : List CbAct) : SysState :=
  { s with timers := Function.update s.timers tid ({ s.timers tid with cb := cb }) }

/-- void stim_set_period_ticks(stim_t *timer, uint32_t period_ticks). -/
def stim_set_period_ticks (s : SysState) (tid : Nat) (period_ticks : Nat) : SysState :=
  if period_ticks > STIM_MAX_TICKS ∨ period_ticks = 0 then s
  else { s with timers := Function.update s.timers tid ({ s.timers tid with period_ticks := period_ticks }) }

/-- void stim_set_count(stim_t *timer, uint32_t count). -/
def stim_set_count (s : SysState) (tid : Nat) (count : Nat) : SysState :=
  { s with timers := Function.update s.timers tid ({ s.timers tid with count := count % U32 }) }

/-- uint32_t stim_get_count(stim_t *timer). -/
def stim_get_count (s : SysState) (tid : Nat) : Nat :=
  (s.timers tid).count

/-- Number of pending entries in the command ring. -/
def qLen (s : SysState) : Nat :=
  (s.cmdHead + STIM_CMD_ARR_SIZE - s.cmdTail) % STIM_CMD_ARR_SIZE

/-- The pending commands, oldest (next to be popped) first. -/
def ringList (s : SysState) : List Cmd :=
  (List.range (qLen s)).map (fun i => s.cmdArr ((s.cmdTail + i) % STIM_CMD_ARR_SIZE))

/-- The pending commands that reference timer `tid`, oldest first. -/
def pendingFor (s : SysState) (tid : Nat) : List Cmd :=
  (ringList s).filter (fun c => c.stim = tid)

/-- Whether a Stop command for `tid` is still pending in the queue. -/
def StopPending (s : SysState) (tid : Nat) : Prop :=
  ∃ c ∈ ringList s, c.stim = tid ∧ c.type = CmdType.stop

instance (s : SysState) (tid : Nat) : Decidable (StopPending s tid) := by
  unfold StopPending
  infer_instance

/-- Replay a list of pending commands on a linkage flag: a Start links the
timer, a Stop unlinks it (exactly what the dispatcher's drain will do). -/
def foldPending (l : List Cmd) (b : Bool) : Bool :=
  l.foldl (fun b c =>
    match c.type with
    | CmdType.start => true
    | CmdType.stop => false
    | CmdType.none => b) b

/-- The operations of the public API, as used to generate reachable states.
A callback behaviour list accompanies init and register. -/
inductive Op where
  | init (tid period : Nat) (cb : List CbAct)
  | start (tid : Nat)
  | stop (tid : Nat)
  | tick
  | handler (fuel : Nat)
  | setPeriod (tid p : Nat)
  | setCount (tid c : Nat)
  | registerCb (tid : Nat) (cb : List CbAct)

/-- Apply one API operation to the state, discarding return codes. -/
def applyOp (s : SysState) : Op → SysState
  | Op.init tid period cb => (stim_init s tid period cb).2
  | Op.start tid => (stim_start s tid).2
  | Op.stop tid => (stim_stop s tid).2
  | Op.tick => stim_systick_inc s
  | Op.handler fuel => stim_handler fuel s
  | Op.setPeriod tid p => stim_set_period_ticks s tid p
  | Op.setCount tid c => stim_set_count s tid c
  | Op.registerCb tid cb => stim_register_callback s tid cb

/-- The usage contract of the header: stim_init must be called before any
other use of a timer, so re-initialization is only performed on a timer
that is not linked and has no command in flight.  All other operations are
unconstrained. -/
def OpOK (s : SysState) : Op → Prop
  | Op.init tid _ _ => tid ∉ s.active ∧ ∀ c ∈ ringList s, c.stim ≠ tid
  | _ => True

/-- The states reachable from the initial state by well-formed API calls,
observed between operations. -/
inductive Reachable : SysState → Prop where
  | refl : Reachable initState
  | step {s : SysState} {op : Op} : Reachable s → OpOK s op →
      Reachable (applyOp s op)

end Softimer

namespace Softimer

/-! ### Basic component lemmas -/

/-- Head and tail indices are inside the ring array. -/
def HT (s : SysState) : Prop :=
  s.cmdHead < STIM_CMD_ARR_SIZE ∧ s.cmdTail < STIM_CMD_ARR_SIZE

def tickN : Nat → SysState → SysState
  | 0, s => s
  | n + 1, s => tickN n (stim_systick_inc s)

/-- The effect of a single queued command on a linkage flag. -/
def cmdStep (b : Bool) (c : Cmd) : Bool :=
  match c.type with
  | CmdType.start => true
  | CmdType.stop => false
  | CmdType.none => b

/-- Along the pending commands for a timer, every Start is applied to an
unlinked timer: this is what makes the dispatcher's expiry overwrite on a
Start command safe. -/
def replayOK : Bool → List Cmd → Prop
  | _, [] => True
  | b, c :: l =>
    match c.type with
    | CmdType.start => b = false ∧ replayOK true l
    | CmdType.stop => replayOK false l
    | CmdType.none => replayOK b l

/-- The timer's `state` field agrees with the result of replaying its pending
commands on the base linkage flag `b`, and every pending Start replays onto
an unlinked timer. -/
def InvTb (s : SysState) (b : Bool) (u : Nat) : Prop :=
  (s.timers u).state = foldPending (pendingFor s u) b ∧
    replayOK b (pendingFor s u)

/-- Every timer record carries a period within [0, STIM_MAX_TICKS]; a period
can only be written by stim_init or stim_set_period_ticks, both of which
validate it. -/
def PeriodsOK (s : SysState) : Prop :=
  ∀ u, (s.timers u).period_ticks ≤ STIM_MAX_TICKS

/-- Master invariant of all reachable states: ring indices in range, the
active list duplicate-free, all periods valid, and every timer's `state`
field consistent with its linkage and pending commands. -/
def MInv (s : SysState) : Prop :=
  HT s ∧ s.active.Nodup ∧ PeriodsOK s ∧
    ∀ u, InvTb s (decide (u ∈ s.active)) u

/-- C1, exactly as claimed: in every reachable state a timer is linked into
the active list iff its state field is STIM_ENABLE and no Stop command for
it is pending in the queue.  `C1_counterexample` refutes this. -/
def C1Claim : Prop :=
  ∀ s : SysState, Reachable s → ∀ tid : Nat,
    tid ∈ s.active ↔ ((s.timers tid).state = true ∧ ¬ StopPending s tid)

/-- Timer expiry `a` lies in the comparator's valid window around `now`:
at most 2^31 ticks in the past, at most 2^31 - 1 in the future. -/
def InWindow (a now : Nat) : Prop :=
  now ≤ a + HALF ∧ a ≤ now + (HALF - 1)

/-- The spec's side condition: no listed timer's expiry is more than 2^31
ticks in the past relative to the current tick.  Stated on the unbounded
tick model, which is exactly why it is kept unbounded. -/
def Wnd (s : SysState) : Prop :=
  ∀ t ∈ s.active, s.systicks ≤ (s.timers t).expiry_ticks + HALF

instance (s : SysState) : Decidable (Wnd s) := by
  unfold Wnd
  infer_instance

/-- Listed expiries never run more than 2^31 - 1 ticks ahead of the current
tick; a consequence of `period <= STIM_MAX_TICKS` that the code maintains
by construction. -/
def UpperOK (s : SysState) : Prop :=
  ∀ t ∈ s.active, (s.timers t).expiry_ticks ≤ s.systicks + (HALF - 1)

/-- The active list is sorted by (unbounded) expiry time. -/
def SortedExp (s : SysState) : Prop :=
  s.active.Pairwise (fun u v => (s.timers u).expiry_ticks ≤ (s.timers v).expiry_ticks)

/-- Reachability along executions on which the spec's side condition holds
at every observation point: each step must land in a state where no listed
timer's expiry is more than 2^31 ticks in the past. -/
inductive RG : SysState → Prop where
  | refl : RG initState
  | step {s : SysState} {op : Op} : RG s → OpOK s op → Wnd (applyOp s op) →
      RG (applyOp s op)

/-- C2, exactly as claimed: in every reachable state in which no listed
timer's expiry is more than 2^31 ticks in the past relative to the current
tick, the active list is in non-decreasing order of now-relative (int32)
expiry.  `C2_counterexample` refutes this: the condition must hold along
the whole execution, not just at the observed state. -/
def C2Claim : Prop :=
  ∀ s : SysState, Reachable s → Wnd s →
    List.Pairwise (· ≤ ·)
      (s.active.map fun tid => sdiff (s.timers tid).expiry_ticks s.systicks)

/-- Phase A of the C2 counterexample: timers 0 (period 1), 1 (period
2^31 - 1), 2 (period 1); timers 0 and 1 started and dispatched at tick 0,
leaving the active list [0, 1] with expiries 1 and 2^31 - 1. -/
def c2sA : SysState :=
  applyOp (applyOp (applyOp (applyOp (applyOp (applyOp initState
    (Op.init 0 1 [])) (Op.init 1 2147483647 [])) (Op.init 2 1 []))
    (Op.start 0)) (Op.start 1)) (Op.handler 4)

/-- Phase B: 2^31 + 2 ticks pass without a dispatch, so timer 0's expiry
wraps to the far future for the signed comparator while timer 1 is still
(barely) in the past. -/
def c2sB : SysState := tickN 2147483650 c2sA

/-- Phase C: start timer 2 and stop timer 0, then dispatch.  Timer 2 is
inserted before the wrapped timer 0; removing timer 0 leaves [2, 1] whose
now-relative expiries are [1, -3] — out of order — while every remaining
timer is inside the 2^31 window again. -/
def c2sBad : SysState :=
  applyOp (applyOp (applyOp c2sB (Op.start 2)) (Op.stop 0)) (Op.handler 4)

/-- A concrete two-timer execution used to witness the amended C2. -/
def c2wit : SysState :=
  applyOp (applyOp (applyOp (applyOp (applyOp initState
    (Op.init 0 1 [])) (Op.init 1 5 [])) (Op.start 0)) (Op.start 1)) (Op.handler 4)

/-- C3 witness: a timer with period 5 started at tick 0 and fired at tick
5 is re-armed for tick 10 = 5 + 5. -/
def c3s : SysState :=
  tickN 5 (applyOp (applyOp (applyOp initState (Op.init 0 5 [])) (Op.start 0)) (Op.handler 4))

/-- C5, exactly as claimed: when stim_handler pops an expired timer and is
about to invoke its callback, the timer record's state field is Idle
(STIM_DISABLE).  `C5_counterexample` refutes this: the record is unlinked
but its state field still reads STIM_ENABLE at that moment (that is why
the post-callback re-arm check `state == STIM_ENABLE` can succeed at all). -/
def C5Claim : Prop :=
  ∀ s : SysState, Reachable s → ∀ tid rest, s.active = tid :: rest →
    sdiff (s.timers tid).expiry_ticks s.systicks ≤ 0 →
    ((fireMid s tid).timers tid).state = false

/-- A reachable state whose head timer is expired and carries a
stop-itself callback. -/
def c5s : SysState :=
  tickN 1 (applyOp (applyOp (applyOp initState
    (Op.init 0 1 [CbAct.stop 0])) (Op.start 0)) (Op.handler 4))

/-- After initializing timer 0, issue n alternating start/stop requests
(start first; each accepted request pushes one command). -/
def c6q : Nat → SysState
  | 0 => (stim_init initState 0 5 []).2
  | n + 1 => if n % 2 = 0 then (stim_start (c6q n) 0).2 else (stim_stop (c6q n) 0).2

/-- The return code of the (n+1)-st start/stop request of the scenario. -/
def c6ret (n : Nat) : Int :=
  if n % 2 = 0 then (stim_start (c6q n) 0).1 else (stim_stop (c6q n) 0).1

/-- C6, exactly as claimed: starting from an empty queue, 16 successive
start/stop commands can all be successfully enqueued.
`C6_counterexample` refutes this: only STIM_CMD_ARR_SIZE - 1 = 15 fit. -/
def C6Claim : Prop :=
  ∀ n < STIM_CMD_ARR_SIZE, c6ret n = 0


/-- Apply a list of commands in order (the functional content of the drain). -/
def applyCmds (s : SysState) (l : List Cmd) : SysState :=
  l.foldl applyCmd s

theorem mask_eq_mod (n : Nat) :
    n &&& (STIM_CMD_ARR_SIZE - 1) = n % STIM_CMD_ARR_SIZE := by
  have h := Nat.and_pow_two_sub_one_eq_mod n 4
  simpa [STIM_CMD_ARR_SIZE] using h

@[simp] theorem stim_list_add_timers (s : SysState) (tid now : Nat) :
    (stim_list_add s tid now).timers = s.timers := by
  unfold stim_list_add; split <;> rfl

@[simp] theorem stim_list_add_cmdArr (s : SysState) (tid now : Nat) :
    (stim_list_add s tid now).cmdArr = s.cmdArr := by
  unfold stim_list_add; split <;> rfl

@[simp] theorem stim_list_add_cmdHead (s : SysState) (tid now : Nat) :
    (stim_list_add s tid now).cmdHead = s.cmdHead := by
  unfold stim_list_add; split <;> rfl

@[simp] theorem stim_list_add_cmdTail (s : SysState) (tid now : Nat) :
    (stim_list_add s tid now).cmdTail = s.cmdTail := by
  unfold stim_list_add; split <;> rfl

@[simp] theorem stim_list_add_systicks (s : SysState) (tid now : Nat) :
    (stim_list_add s tid now).systicks = s.systicks := by
  unfold stim_list_add; split <;> rfl

@[simp] theorem stim_list_del_timers (s : SysState) (tid : Nat) :
    (stim_list_del s tid).timers = s.timers := rfl

@[simp] theorem stim_list_del_cmdArr (s : SysState) (tid : Nat) :
    (stim_list_del s tid).cmdArr = s.cmdArr := rfl

@[simp] theorem stim_list_del_cmdHead (s : SysState) (tid : Nat) :
    (stim_list_del s tid).cmdHead = s.cmdHead := rfl

@[simp] theorem stim_list_del_cmdTail (s : SysState) (tid : Nat) :
    (stim_list_del s tid).cmdTail = s.cmdTail := rfl

@[simp] theorem stim_list_del_systicks (s : SysState) (tid : Nat) :
    (stim_list_del s tid).systicks = s.systicks := rfl

@[simp] theorem stim_list_del_active (s : SysState) (tid : Nat) :
    (stim_list_del s tid).active = s.active.erase tid := rfl

@[simp] theorem applyCmd_cmdArr (s : SysState) (c : Cmd) :
    (applyCmd s c).cmdArr = s.cmdArr := by
  unfold applyCmd; cases c.type <;> simp

@[simp] theorem applyCmd_cmdHead (s : SysState) (c : Cmd) :
    (applyCmd s c).cmdHead = s.cmdHead := by
  unfold applyCmd; cases c.type <;> simp

@[simp] theorem applyCmd_cmdTail (s : SysState) (c : Cmd) :
    (applyCmd s c).cmdTail = s.cmdTail := by
  unfold applyCmd; cases c.type <;> simp

@[simp] theorem applyCmd_systicks (s : SysState) (c : Cmd) :
    (applyCmd s c).systicks = s.systicks := by
  unfold applyCmd; cases c.type <;> simp

@[simp] theorem stim_cmd_push_timers (s : SysState) (tid : Nat) (ty : CmdType) :
    ((stim_cmd_push s tid ty).2).timers = s.timers := by
  unfold stim_cmd_push; dsimp only; split <;> rfl

@[simp] theorem stim_cmd_push_active (s : SysState) (tid : Nat) (ty : CmdType) :
    ((stim_cmd_push s tid ty).2).active = s.active := by
  unfold stim_cmd_push; dsimp only; split <;> rfl

@[simp] theorem stim_cmd_push_systicks (s : SysState) (tid : Nat) (ty : CmdType) :
    ((stim_cmd_push s tid ty).2).systicks = s.systicks := by
  unfold stim_cmd_push; dsimp only; split <;> rfl

@[simp] theorem stim_cmd_push_cmdTail (s : SysState) (tid : Nat) (ty : CmdType) :
    ((stim_cmd_push s tid ty).2).cmdTail = s.cmdTail := by
  unfold stim_cmd_push; dsimp only; split <;> rfl

@[simp] theorem stim_start_active (s : SysState) (tid : Nat) :
    ((stim_start s tid).2).active = s.active := by
  unfold stim_start; dsimp only; split
  · rfl
  · split <;> simp

@[simp] theorem stim_start_systicks (s : SysState) (tid : Nat) :
    ((stim_start s tid).2).systicks = s.systicks := by
  unfold stim_start; dsimp only; split
  · rfl
  · split <;> simp

@[simp] theorem stim_start_cmdTail (s : SysState) (tid : Nat) :
    ((stim_start s tid).2).cmdTail = s.cmdTail := by
  unfold stim_start; dsimp only; split
  · rfl
  · split <;> simp

@[simp] theorem stim_stop_active (s : SysState) (tid : Nat) :
    ((stim_stop s tid).2).active = s.active := by
  unfold stim_stop; dsimp only; split
  · rfl
  · split <;> simp

@[simp] theorem stim_stop_systicks (s : SysState) (tid : Nat) :
    ((stim_stop s tid).2).systicks = s.systicks := by
  unfold stim_stop; dsimp only; split
  · rfl
  · split <;> simp

@[simp] theorem stim_stop_cmdTail (s : SysState) (tid : Nat) :
    ((stim_stop s tid).2).cmdTail = s.cmdTail := by
  unfold stim_stop; dsimp only; split
  · rfl
  · split <;> simp

@[simp] theorem applyCbAct_active (s : SysState) (a : CbAct) :
    (applyCbAct s a).active = s.active := by
  cases a <;> simp [applyCbAct]

@[simp] theorem applyCbAct_systicks (s : SysState) (a : CbAct) :
    (applyCbAct s a).systicks = s.systicks := by
  cases a <;> simp [applyCbAct]

@[simp] theorem applyCbAct_cmdTail (s : SysState) (a : CbAct) :
    (applyCbAct s a).cmdTail = s.cmdTail := by
  cases a <;> simp [applyCbAct]

@[simp] theorem runCb_active (s : SysState) (acts : List CbAct) :
    (runCb s acts).active = s.active := by
  induction acts generalizing s with
  | nil => rfl
  | cons a l ih => simp [runCb, List.foldl_cons] at *; rw [ih]; simp

@[simp] theorem runCb_systicks (s : SysState) (acts : List CbAct) :
    (runCb s acts).systicks = s.systicks := by
  induction acts generalizing s with
  | nil => rfl
  | cons a l ih => simp [runCb, List.foldl_cons] at *; rw [ih]; simp

@[simp] theorem runCb_cmdTail (s : SysState) (acts : List CbAct) :
    (runCb s acts).cmdTail = s.cmdTail := by
  induction acts generalizing s with
  | nil => rfl
  | cons a l ih => simp [runCb, List.foldl_cons] at *; rw [ih]; simp

end Softimer

namespace Softimer

/-! ### Ring buffer lemmas -/

theorem qLen_lt (s : SysState) : qLen s < STIM_CMD_ARR_SIZE := by
  unfold qLen STIM_CMD_ARR_SIZE; omega

theorem qLen_zero_iff {s : SysState} (h : HT s) :
    qLen s = 0 ↔ s.cmdHead = s.cmdTail := by
  obtain ⟨h1, h2⟩ := h
  unfold qLen; unfold STIM_CMD_ARR_SIZE at *; omega

theorem stim_cmd_push_fail {s : SysState} (tid : Nat) (ty : CmdType)
    (h : (s.cmdHead + 1) % STIM_CMD_ARR_SIZE = s.cmdTail) :
    stim_cmd_push s tid ty = (-1, s) := by
  unfold stim_cmd_push; rw [mask_eq_mod]; simp [h]

theorem stim_cmd_push_succ {s : SysState} (tid : Nat) (ty : CmdType)
    (h : (s.cmdHead + 1) % STIM_CMD_ARR_SIZE ≠ s.cmdTail) :
    stim_cmd_push s tid ty =
      (0, { s with
            cmdArr := Function.update s.cmdArr s.cmdHead { stim := tid, type := ty }
            cmdHead := (s.cmdHead + 1) % STIM_CMD_ARR_SIZE }) := by
  unfold stim_cmd_push; rw [mask_eq_mod]; simp [h]

theorem stim_cmd_push_HT {s : SysState} (tid : Nat) (ty : CmdType) (h : HT s) :
    HT ((stim_cmd_push s tid ty).2) := by
  obtain ⟨h1, h2⟩ := h
  by_cases hf : (s.cmdHead + 1) % STIM_CMD_ARR_SIZE = s.cmdTail
  · rw [stim_cmd_push_fail tid ty hf]; exact ⟨h1, h2⟩
  · rw [stim_cmd_push_succ tid ty hf]
    refine ⟨?_, h2⟩
    simp only [STIM_CMD_ARR_SIZE]
    omega

theorem qLen_push {s : SysState} (tid : Nat) (ty : CmdType) (hHT : HT s)
    (h : (s.cmdHead + 1) % STIM_CMD_ARR_SIZE ≠ s.cmdTail) :
    qLen ((stim_cmd_push s tid ty).2) = qLen s + 1 := by
  obtain ⟨h1, h2⟩ := hHT
  rw [stim_cmd_push_succ tid ty h]
  unfold qLen; unfold STIM_CMD_ARR_SIZE at *; simp; omega

theorem ringList_push {s : SysState} (tid : Nat) (ty : CmdType) (hHT : HT s)
    (h : (s.cmdHead + 1) % STIM_CMD_ARR_SIZE ≠ s.cmdTail) :
    ringList ((stim_cmd_push s tid ty).2) =
      ringList s ++ [{ stim := tid, type := ty }] := by
  have hq := qLen_push tid ty hHT h
  obtain ⟨h1, h2⟩ := hHT
  unfold ringList
  rw [hq, List.range_succ, List.map_append]
  rw [stim_cmd_push_succ tid ty h]
  simp only [List.map_cons, List.map_nil]
  congr 1
  · apply List.map_congr_left
    intro i hi
    have hilt : i < qLen s := List.mem_range.mp hi
    have hne : (s.cmdTail + i) % STIM_CMD_ARR_SIZE ≠ s.cmdHead := by
      unfold qLen STIM_CMD_ARR_SIZE at *; omega
    exact Function.update_noteq hne _ _
  · have heq : (s.cmdTail + qLen s) % STIM_CMD_ARR_SIZE = s.cmdHead := by
      unfold qLen STIM_CMD_ARR_SIZE at *; omega
    rw [heq, Function.update_same]

theorem qLen_pop {s : SysState} (hHT : HT s) (hne : s.cmdHead ≠ s.cmdTail) :
    qLen { s with cmdTail := (s.cmdTail + 1) % STIM_CMD_ARR_SIZE } = qLen s - 1 ∧
      1 ≤ qLen s := by
  obtain ⟨h1, h2⟩ := hHT
  unfold qLen; unfold STIM_CMD_ARR_SIZE at *; simp; omega

theorem ringList_pop {s : SysState} (hHT : HT s) (hne : s.cmdHead ≠ s.cmdTail) :
    ringList s =
      s.cmdArr s.cmdTail ::
        ringList { s with cmdTail := (s.cmdTail + 1) % STIM_CMD_ARR_SIZE } := by
  obtain ⟨hq, hq1⟩ := qLen_pop hHT hne
  obtain ⟨h1, h2⟩ := hHT
  unfold ringList
  rw [hq]
  obtain ⟨q, hqe⟩ : ∃ q, qLen s = q + 1 := ⟨qLen s - 1, by omega⟩
  rw [hqe]
  simp only [Nat.add_sub_cancel]
  rw [List.range_succ_eq_map]
  simp only [List.map_cons, List.map_map]
  congr 1
  · congr 1
    simp only [STIM_CMD_ARR_SIZE] at *
    omega
  · apply List.map_congr_left
    intro i _
    simp only [Function.comp_apply]
    congr 1
    conv_rhs => rw [Nat.mod_add_mod]
    simp only [STIM_CMD_ARR_SIZE] at *
    omega

theorem HT_pop {s : SysState} (hHT : HT s) :
    HT { s with cmdTail := (s.cmdTail + 1) % STIM_CMD_ARR_SIZE } := by
  obtain ⟨h1, h2⟩ := hHT
  refine ⟨h1, ?_⟩
  simp only [STIM_CMD_ARR_SIZE]; omega

@[simp] theorem qLen_applyCmd (s : SysState) (c : Cmd) :
    qLen (applyCmd s c) = qLen s := by
  unfold qLen; simp

@[simp] theorem ringList_applyCmd (s : SysState) (c : Cmd) :
    ringList (applyCmd s c) = ringList s := by
  unfold ringList qLen; simp

theorem HT_applyCmd {s : SysState} (c : Cmd) (h : HT s) : HT (applyCmd s c) := by
  obtain ⟨h1, h2⟩ := h
  exact ⟨by simpa using h1, by simpa using h2⟩

end Softimer

namespace Softimer

/-! ### Frame lemmas: which timer fields each operation can change -/

theorem stim_start_timers_ne {s : SysState} {tid u : Nat} (h : u ≠ tid) :
    ((stim_start s tid).2).timers u = s.timers u := by
  unfold stim_start; dsimp only; split
  · rfl
  · split
    · simp [Function.update_noteq h]
    · simp

theorem stim_stop_timers_ne {s : SysState} {tid u : Nat} (h : u ≠ tid) :
    ((stim_stop s tid).2).timers u = s.timers u := by
  unfold stim_stop; dsimp only; split
  · rfl
  · split
    · simp [Function.update_noteq h]
    · simp

theorem stim_start_cb (s : SysState) (tid u : Nat) :
    (((stim_start s tid).2).timers u).cb = (s.timers u).cb := by
  unfold stim_start; dsimp only; split
  · rfl
  · split
    · simp [Function.update_apply]; split <;> simp_all
    · simp

theorem stim_stop_cb (s : SysState) (tid u : Nat) :
    (((stim_stop s tid).2).timers u).cb = (s.timers u).cb := by
  unfold stim_stop; dsimp only; split
  · rfl
  · split
    · simp [Function.update_apply]; split <;> simp_all
    · simp

theorem stim_start_expiry (s : SysState) (tid u : Nat) :
    (((stim_start s tid).2).timers u).expiry_ticks = (s.timers u).expiry_ticks := by
  unfold stim_start; dsimp only; split
  · rfl
  · split
    · simp [Function.update_apply]; split <;> simp_all
    · simp

theorem stim_stop_expiry (s : SysState) (tid u : Nat) :
    (((stim_stop s tid).2).timers u).expiry_ticks = (s.timers u).expiry_ticks := by
  unfold stim_stop; dsimp only; split
  · rfl
  · split
    · simp [Function.update_apply]; split <;> simp_all
    · simp

theorem stim_start_period (s : SysState) (tid u : Nat) :
    (((stim_start s tid).2).timers u).period_ticks = (s.timers u).period_ticks := by
  unfold stim_start; dsimp only; split
  · rfl
  · split
    · simp [Function.update_apply]; split <;> simp_all
    · simp

theorem stim_stop_period (s : SysState) (tid u : Nat) :
    (((stim_stop s tid).2).timers u).period_ticks = (s.timers u).period_ticks := by
  unfold stim_stop; dsimp only; split
  · rfl
  · split
    · simp [Function.update_apply]; split <;> simp_all
    · simp

theorem stim_start_count (s : SysState) (tid u : Nat) :
    (((stim_start s tid).2).timers u).count = (s.timers u).count := by
  unfold stim_start; dsimp only; split
  · rfl
  · split
    · simp [Function.update_apply]; split <;> simp_all
    · simp

theorem stim_stop_count (s : SysState) (tid u : Nat) :
    (((stim_stop s tid).2).timers u).count = (s.timers u).count := by
  unfold stim_stop; dsimp only; split
  · rfl
  · split
    · simp [Function.update_apply]; split <;> simp_all
    · simp

theorem applyCbAct_cb (s : SysState) (a : CbAct) (u : Nat) :
    ((applyCbAct s a).timers u).cb = (s.timers u).cb := by
  cases a <;> simp [applyCbAct, stim_start_cb, stim_stop_cb]

theorem applyCbAct_expiry (s : SysState) (a : CbAct) (u : Nat) :
    ((applyCbAct s a).timers u).expiry_ticks = (s.timers u).expiry_ticks := by
  cases a <;> simp [applyCbAct, stim_start_expiry, stim_stop_expiry]

theorem applyCbAct_period (s : SysState) (a : CbAct) (u : Nat) :
    ((applyCbAct s a).timers u).period_ticks = (s.timers u).period_ticks := by
  cases a <;> simp [applyCbAct, stim_start_period, stim_stop_period]

theorem applyCbAct_count (s : SysState) (a : CbAct) (u : Nat) :
    ((applyCbAct s a).timers u).count = (s.timers u).count := by
  cases a <;> simp [applyCbAct, stim_start_count, stim_stop_count]

theorem runCb_cb (s : SysState) (acts : List CbAct) (u : Nat) :
    ((runCb s acts).timers u).cb = (s.timers u).cb := by
  induction acts generalizing s with
  | nil => rfl
  | cons a l ih => rw [runCb, List.foldl_cons, ← runCb, ih, applyCbAct_cb]

theorem runCb_expiry (s : SysState) (acts : List CbAct) (u : Nat) :
    ((runCb s acts).timers u).expiry_ticks = (s.timers u).expiry_ticks := by
  induction acts generalizing s with
  | nil => rfl
  | cons a l ih => rw [runCb, List.foldl_cons, ← runCb, ih, applyCbAct_expiry]

theorem runCb_period (s : SysState) (acts : List CbAct) (u : Nat) :
    ((runCb s acts).timers u).period_ticks = (s.timers u).period_ticks := by
  induction acts generalizing s with
  | nil => rfl
  | cons a l ih => rw [runCb, List.foldl_cons, ← runCb, ih, applyCbAct_period]

theorem runCb_count (s : SysState) (acts : List CbAct) (u : Nat) :
    ((runCb s acts).timers u).count = (s.timers u).count := by
  induction acts generalizing s with
  | nil => rfl
  | cons a l ih => rw [runCb, List.foldl_cons, ← runCb, ih, applyCbAct_count]

theorem applyCmd_timers_ne {s : SysState} {c : Cmd} {u : Nat} (h : u ≠ c.stim) :
    (applyCmd s c).timers u = s.timers u := by
  unfold applyCmd; cases c.type <;> simp [Function.update_noteq h]

theorem applyCmd_state (s : SysState) (c : Cmd) (u : Nat) :
    ((applyCmd s c).timers u).state = ((s.timers u)).state := by
  unfold applyCmd; cases c.type <;> simp [Function.update_apply] <;> split <;> simp_all

theorem applyCmd_cb (s : SysState) (c : Cmd) (u : Nat) :
    ((applyCmd s c).timers u).cb = ((s.timers u)).cb := by
  unfold applyCmd; cases c.type <;> simp [Function.update_apply] <;> split <;> simp_all

theorem applyCmd_period (s : SysState) (c : Cmd) (u : Nat) :
    ((applyCmd s c).timers u).period_ticks = ((s.timers u)).period_ticks := by
  unfold applyCmd; cases c.type <;> simp [Function.update_apply] <;> split <;> simp_all

theorem applyCmd_count (s : SysState) (c : Cmd) (u : Nat) :
    ((applyCmd s c).timers u).count = ((s.timers u)).count := by
  unfold applyCmd; cases c.type <;> simp [Function.update_apply] <;> split <;> simp_all

end Softimer


namespace Softimer

/-! ### The drain loop applies the pending commands in FIFO order -/

theorem applyCmds_cons (s : SysState) (c : Cmd) (r : List Cmd) :
    applyCmds s (c :: r) = applyCmds (applyCmd s c) r := rfl

theorem applyCmd_cmdTail_comm (s : SysState) (c : Cmd) (x : Nat) :
    applyCmd { s with cmdTail := x } c = { applyCmd s c with cmdTail := x } := by
  unfold applyCmd stim_list_add stim_list_del stim_get_systicks
  cases c.type <;> dsimp only <;> try rfl
  split <;> rfl

theorem applyCmds_cmdTail_comm (s : SysState) (l : List Cmd) (x : Nat) :
    applyCmds { s with cmdTail := x } l = { applyCmds s l with cmdTail := x } := by
  induction l generalizing s with
  | nil => rfl
  | cons c r ih =>
    rw [applyCmds_cons, applyCmd_cmdTail_comm, ih, applyCmds_cons]

theorem applyCmds_cmdHead (s : SysState) (l : List Cmd) :
    (applyCmds s l).cmdHead = s.cmdHead := by
  induction l generalizing s with
  | nil => rfl
  | cons c r ih => rw [applyCmds_cons, ih]; simp

theorem ringList_nil {s : SysState} (h : qLen s = 0) : ringList s = [] := by
  simp [ringList, h]

theorem cmd_handler_spec {fuel : Nat} {s : SysState} (hHT : HT s)
    (hfuel : qLen s ≤ fuel) :
    stim_cmd_handler fuel s =
      { applyCmds s (ringList s) with cmdTail := s.cmdHead } := by
  induction fuel generalizing s with
  | zero =>
    have h0 : qLen s = 0 := Nat.le_zero.mp hfuel
    rw [ringList_nil h0]
    have he : s.cmdHead = s.cmdTail := (qLen_zero_iff hHT).mp h0
    show s = _
    rw [applyCmds]
    simp only [List.foldl_nil]
    cases s
    simp_all
  | succ fuel ih =>
    rw [stim_cmd_handler]
    split
    · next he =>
      have h0 : qLen s = 0 := (qLen_zero_iff hHT).mpr he
      rw [ringList_nil h0, applyCmds]
      simp only [List.foldl_nil]
      cases s
      simp_all
    · next he =>
      rw [mask_eq_mod]
      have hne : s.cmdHead ≠ s.cmdTail := he
      have hHT1 : HT { s with cmdTail := (s.cmdTail + 1) % STIM_CMD_ARR_SIZE } :=
        HT_pop hHT
      have hHTA := HT_applyCmd (s := { s with cmdTail := (s.cmdTail + 1) % STIM_CMD_ARR_SIZE })
        (s.cmdArr s.cmdTail) hHT1
      obtain ⟨hq, hq1⟩ := qLen_pop hHT hne
      have hfuel2 : qLen (applyCmd { s with cmdTail := (s.cmdTail + 1) % STIM_CMD_ARR_SIZE }
          (s.cmdArr s.cmdTail)) ≤ fuel := by
        rw [qLen_applyCmd, hq]; omega
      rw [ih hHTA hfuel2]
      rw [ringList_applyCmd]
      rw [ringList_pop hHT hne]
      rw [applyCmds_cons]
      rw [applyCmd_cmdTail_comm s (s.cmdArr s.cmdTail) ((s.cmdTail + 1) % STIM_CMD_ARR_SIZE)]
      rw [applyCmds_cmdTail_comm]
      simp only [applyCmd_cmdHead]

theorem cmd_handler_drained {fuel : Nat} {s : SysState} (hHT : HT s)
    (hfuel : qLen s ≤ fuel) :
    (stim_cmd_handler fuel s).cmdHead = s.cmdHead ∧
      (stim_cmd_handler fuel s).cmdTail = s.cmdHead ∧
      qLen (stim_cmd_handler fuel s) = 0 ∧
      ringList (stim_cmd_handler fuel s) = [] := by
  rw [cmd_handler_spec hHT hfuel]
  refine ⟨by simp [applyCmds_cmdHead], rfl, ?_, ?_⟩
  · unfold qLen
    simp [applyCmds_cmdHead]
  · apply ringList_nil
    unfold qLen
    simp [applyCmds_cmdHead]

end Softimer

namespace Softimer

/-! ### Head and tail stay inside the ring across every operation -/

theorem HT_start {s : SysState} (tid : Nat) (h : HT s) : HT ((stim_start s tid).2) := by
  unfold stim_start; dsimp only; split
  · exact h
  · split
    · exact stim_cmd_push_HT tid CmdType.start h
    · exact stim_cmd_push_HT tid CmdType.start h

theorem HT_stop {s : SysState} (tid : Nat) (h : HT s) : HT ((stim_stop s tid).2) := by
  unfold stim_stop; dsimp only; split
  · exact h
  · split
    · exact stim_cmd_push_HT tid CmdType.stop h
    · exact stim_cmd_push_HT tid CmdType.stop h

theorem HT_applyCbAct {s : SysState} (a : CbAct) (h : HT s) : HT (applyCbAct s a) := by
  cases a with
  | start tid => exact HT_start tid h
  | stop tid => exact HT_stop tid h

theorem HT_runCb {s : SysState} (acts : List CbAct) (h : HT s) : HT (runCb s acts) := by
  induction acts generalizing s with
  | nil => exact h
  | cons a l ih => exact ih (HT_applyCbAct a h)

theorem HT_fireMid {s : SysState} (tid : Nat) (h : HT s) : HT (fireMid s tid) := h

theorem HT_fire {s : SysState} (now tid : Nat) (h : HT s) : HT (stim_fire now s tid) := by
  unfold stim_fire; dsimp only; split
  · have h2 := HT_runCb ((fireMid s tid).timers tid).cb (HT_fireMid tid h)
    constructor
    · simpa using h2.1
    · simpa using h2.2
  · exact HT_runCb ((fireMid s tid).timers tid).cb (HT_fireMid tid h)

theorem HT_loop {s : SysState} (fuel now : Nat) (h : HT s) :
    HT (stim_handler_loop fuel now s) := by
  induction fuel generalizing s with
  | zero => exact h
  | succ fuel ih =>
    rw [stim_handler_loop]
    cases ha : s.active with
    | nil => exact h
    | cons tid rest =>
      dsimp only
      split
      · exact ih (HT_fire now tid h)
      · exact h

theorem HT_cmd_handler {s : SysState} (fuel : Nat) (h : HT s) :
    HT (stim_cmd_handler fuel s) := by
  induction fuel generalizing s with
  | zero => exact h
  | succ fuel ih =>
    rw [stim_cmd_handler]
    split
    · exact h
    · rw [mask_eq_mod]
      exact ih (HT_applyCmd _ (HT_pop h))

theorem HT_handler {s : SysState} (fuel : Nat) (h : HT s) :
    HT (stim_handler fuel s) :=
  HT_loop fuel _ (HT_cmd_handler STIM_CMD_ARR_SIZE h)

theorem HT_applyOp {s : SysState} (op : Op) (h : HT s) : HT (applyOp s op) := by
  cases op with
  | init tid period cb =>
    show HT (stim_init s tid period cb).2
    unfold stim_init
    dsimp only
    split
    · exact h
    · exact h
  | start tid => exact HT_start tid h
  | stop tid => exact HT_stop tid h
  | tick => exact h
  | handler fuel => exact HT_handler fuel h
  | setPeriod tid p =>
    show HT (stim_set_period_ticks s tid p)
    unfold stim_set_period_ticks
    split
    · exact h
    · exact h
  | setCount tid c => exact h
  | registerCb tid cb => exact h

theorem Reachable_HT {s : SysState} (h : Reachable s) : HT s := by
  induction h with
  | refl => exact ⟨by norm_num [initState, STIM_CMD_ARR_SIZE], by norm_num [initState, STIM_CMD_ARR_SIZE]⟩
  | step hr hok ih => exact HT_applyOp _ ih

/-! ### Iterated tick advance -/

theorem tickN_eq (n : Nat) (s : SysState) :
    tickN n s = { s with systicks := s.systicks + n } := by
  induction n generalizing s with
  | zero => cases s; rfl
  | succ n ih =>
    rw [tickN, ih]
    unfold stim_systick_inc
    dsimp only
    congr 1
    omega

theorem Reachable_tickN {s : SysState} (n : Nat) (h : Reachable s) :
    Reachable (tickN n s) := by
  induction n generalizing s with
  | zero => exact h
  | succ n ih =>
    rw [tickN]
    exact ih (@Reachable.step s Op.tick h trivial)

end Softimer

namespace Softimer

/-! ### Replay of pending commands -/

theorem foldPending_eq_foldl (l : List Cmd) (b : Bool) :
    foldPending l b = l.foldl cmdStep b := by
  unfold foldPending cmdStep
  rfl

theorem foldPending_append (l m : List Cmd) (b : Bool) :
    foldPending (l ++ m) b = foldPending m (foldPending l b) := by
  simp [foldPending_eq_foldl, List.foldl_append]

theorem foldPending_cons (c : Cmd) (l : List Cmd) (b : Bool) :
    foldPending (c :: l) b = foldPending l (cmdStep b c) := by
  simp [foldPending_eq_foldl, List.foldl_cons]

theorem foldPending_mono {l : List Cmd} (h : foldPending l true = false) :
    foldPending l false = false := by
  induction l with
  | nil => rfl
  | cons c r ih =>
    rw [foldPending_cons] at *
    cases hc : c.type <;> simp [cmdStep, hc] at * <;> try exact h
    exact ih h

theorem replayOK_false_of_true {l : List Cmd} (h : replayOK true l) :
    replayOK false l := by
  induction l with
  | nil => trivial
  | cons c r ih =>
    unfold replayOK at h ⊢
    cases hc : c.type <;> simp [hc] at h ⊢
    · exact ih h
    · exact h

theorem replayOK_append_start {l : List Cmd} {b : Bool} {c : Cmd}
    (hc : c.type = CmdType.start) (h : replayOK b l)
    (hf : foldPending l b = false) : replayOK b (l ++ [c]) := by
  obtain ⟨cs, ct⟩ := c
  cases hc
  induction l generalizing b with
  | nil =>
    unfold foldPending at hf
    simp at hf
    exact ⟨hf, trivial⟩
  | cons d r ih =>
    rw [foldPending_cons] at hf
    unfold replayOK at h ⊢
    cases hd : d.type <;> simp [hd, cmdStep] at h hf ⊢
    · exact ih h hf
    · exact ⟨h.1, ih h.2 hf⟩
    · exact ih h hf

theorem replayOK_append_stop {l : List Cmd} {b : Bool} {c : Cmd}
    (hc : c.type = CmdType.stop) (h : replayOK b l) : replayOK b (l ++ [c]) := by
  obtain ⟨cs, ct⟩ := c
  cases hc
  induction l generalizing b with
  | nil => trivial
  | cons d r ih =>
    unfold replayOK at h ⊢
    cases hd : d.type <;> simp [hd] at h ⊢
    · exact ih h
    · exact ⟨h.1, ih h.2⟩
    · exact ih h

/-! ### The insert scan produces a permutation of consing -/

theorem listAddAux_perm (timers : Nat → Stim) (texp now : Nat) (l : List Nat)
    (tid : Nat) : (listAddAux timers texp now l tid).Perm (tid :: l) := by
  induction l with
  | nil => exact List.Perm.refl _
  | cons e rest ih =>
    rw [listAddAux]
    split
    · exact List.Perm.refl _
    · exact (ih.cons e).trans (List.Perm.swap tid e rest)

theorem listAddAux_mem (timers : Nat → Stim) (texp now : Nat) (l : List Nat)
    (tid u : Nat) :
    u ∈ listAddAux timers texp now l tid ↔ u = tid ∨ u ∈ l := by
  rw [(listAddAux_perm timers texp now l tid).mem_iff]
  simp

theorem listAddAux_nodup (timers : Nat → Stim) (texp now : Nat) {l : List Nat}
    {tid : Nat} (hnd : l.Nodup) (hni : tid ∉ l) :
    (listAddAux timers texp now l tid).Nodup := by
  exact ((listAddAux_perm timers texp now l tid).nodup_iff).mpr
    (by simp [hnd, hni])

theorem stim_list_add_mem (s : SysState) (tid now u : Nat) :
    u ∈ (stim_list_add s tid now).active ↔ (u = tid ∨ u ∈ s.active) := by
  unfold stim_list_add
  split
  · next hmem =>
    constructor
    · intro h; exact Or.inr h
    · intro h
      cases h with
      | inl h => rw [h]; exact hmem
      | inr h => exact h
  · exact listAddAux_mem _ _ _ _ _ _

theorem stim_list_add_nodup {s : SysState} (tid now : Nat)
    (hnd : s.active.Nodup) : ((stim_list_add s tid now).active).Nodup := by
  unfold stim_list_add
  split
  · exact hnd
  · next hni => exact listAddAux_nodup _ _ _ hnd hni

end Softimer

namespace Softimer

/-! ### The per-timer linkage invariant, parametric in the replay base -/

theorem pendingFor_push_succ {s : SysState} {v : Nat} {ty : CmdType}
    (hHT : HT s) (hnf : (s.cmdHead + 1) % STIM_CMD_ARR_SIZE ≠ s.cmdTail)
    (u : Nat) :
    pendingFor ((stim_cmd_push s v ty).2) u =
      pendingFor s u ++ if v = u then [{ stim := v, type := ty }] else [] := by
  unfold pendingFor
  rw [ringList_push v ty hHT hnf, List.filter_append]
  congr 1
  split
  · next hvu => simp [hvu]
  · next hvu => simp [hvu]

theorem stim_cmd_push_full_of_ret {s : SysState} {v : Nat} {ty : CmdType}
    (h : (stim_cmd_push s v ty).1 ≠ 0) :
    (s.cmdHead + 1) % STIM_CMD_ARR_SIZE = s.cmdTail := by
  by_cases hnf : (s.cmdHead + 1) % STIM_CMD_ARR_SIZE = s.cmdTail
  · exact hnf
  · rw [stim_cmd_push_succ v ty hnf] at h
    simp at h

theorem stim_cmd_push_notfull_of_ret {s : SysState} {v : Nat} {ty : CmdType}
    (h : (stim_cmd_push s v ty).1 = 0) :
    (s.cmdHead + 1) % STIM_CMD_ARR_SIZE ≠ s.cmdTail := by
  intro hf
  rw [stim_cmd_push_fail v ty hf] at h
  simp at h

theorem InvTb_start {s : SysState} {v : Nat} (hHT : HT s) (b : Bool) (u : Nat)
    (h : InvTb s b u) : InvTb ((stim_start s v).2) b u := by
  unfold stim_start
  dsimp only
  split
  · exact h
  · next hstate =>
    split
    · next hret =>
      have hnf := stim_cmd_push_notfull_of_ret hret
      have hpend := @pendingFor_push_succ s v CmdType.start hHT hnf
      constructor
      · show ({ (stim_cmd_push s v CmdType.start).2 with
            timers := Function.update (stim_cmd_push s v CmdType.start).2.timers v
              ({ (stim_cmd_push s v CmdType.start).2.timers v with state := true }) }.timers u).state = _
        have hq : pendingFor { (stim_cmd_push s v CmdType.start).2 with
            timers := Function.update (stim_cmd_push s v CmdType.start).2.timers v
              ({ (stim_cmd_push s v CmdType.start).2.timers v with state := true }) } u =
            pendingFor ((stim_cmd_push s v CmdType.start).2) u := by
          unfold pendingFor ringList qLen
          rfl
        rw [hq, hpend u]
        by_cases huv : u = v
        · subst huv
          simp [Function.update_same, foldPending_append, foldPending_cons, cmdStep, foldPending]
        · dsimp only
          rw [Function.update_noteq huv]
          have hvu : ¬ v = u := fun hh => huv hh.symm
          simp only [hvu, if_false, List.append_nil]
          rw [stim_cmd_push_timers]
          exact h.1
      · have hq : pendingFor { (stim_cmd_push s v CmdType.start).2 with
            timers := Function.update (stim_cmd_push s v CmdType.start).2.timers v
              ({ (stim_cmd_push s v CmdType.start).2.timers v with state := true }) } u =
            pendingFor ((stim_cmd_push s v CmdType.start).2) u := by
          unfold pendingFor ringList qLen
          rfl
        show replayOK b (pendingFor _ u)
        rw [hq, hpend u]
        by_cases huv : u = v
        · subst huv
          simp only [if_pos rfl]
          apply replayOK_append_start rfl h.2
          rw [← h.1]
          simp only [Bool.not_eq_true] at hstate
          exact hstate
        · have hvu : ¬ v = u := fun hh => huv hh.symm
          simp only [hvu, if_false, List.append_nil]
          exact h.2
    · next hret =>
      have hf := stim_cmd_push_full_of_ret hret
      rw [stim_cmd_push_fail v CmdType.start hf]
      exact h

theorem InvTb_stop {s : SysState} {v : Nat} (hHT : HT s) (b : Bool) (u : Nat)
    (h : InvTb s b u) : InvTb ((stim_stop s v).2) b u := by
  unfold stim_stop
  dsimp only
  split
  · exact h
  · next hstate =>
    split
    · next hret =>
      have hnf := stim_cmd_push_notfull_of_ret hret
      have hpend := @pendingFor_push_succ s v CmdType.stop hHT hnf
      have hq : pendingFor { (stim_cmd_push s v CmdType.stop).2 with
          timers := Function.update (stim_cmd_push s v CmdType.stop).2.timers v
            ({ (stim_cmd_push s v CmdType.stop).2.timers v with state := false }) } u =
          pendingFor ((stim_cmd_push s v CmdType.stop).2) u := by
        unfold pendingFor ringList qLen
        rfl
      constructor
      · show ({ (stim_cmd_push s v CmdType.stop).2 with
            timers := Function.update (stim_cmd_push s v CmdType.stop).2.timers v
              ({ (stim_cmd_push s v CmdType.stop).2.timers v with state := false }) }.timers u).state = _
        rw [hq, hpend u]
        by_cases huv : u = v
        · subst huv
          simp [Function.update_same, foldPending_append, foldPending_cons, cmdStep, foldPending]
        · dsimp only
          rw [Function.update_noteq huv]
          have hvu : ¬ v = u := fun hh => huv hh.symm
          simp only [hvu, if_false, List.append_nil]
          rw [stim_cmd_push_timers]
          exact h.1
      · show replayOK b (pendingFor _ u)
        rw [hq, hpend u]
        by_cases huv : u = v
        · subst huv
          simp only [if_pos rfl]
          exact replayOK_append_stop rfl h.2
        · have hvu : ¬ v = u := fun hh => huv hh.symm
          simp only [hvu, if_false, List.append_nil]
          exact h.2
    · next hret =>
      have hf := stim_cmd_push_full_of_ret hret
      rw [stim_cmd_push_fail v CmdType.stop hf]
      exact h

theorem InvTb_applyCbAct {s : SysState} {a : CbAct} (hHT : HT s) (b : Bool)
    (u : Nat) (h : InvTb s b u) : InvTb (applyCbAct s a) b u := by
  cases a with
  | start v => exact InvTb_start hHT b u h
  | stop v => exact InvTb_stop hHT b u h

theorem InvTb_runCb {s : SysState} {acts : List CbAct} (hHT : HT s) (b : Bool)
    (u : Nat) (h : InvTb s b u) : InvTb (runCb s acts) b u := by
  induction acts generalizing s with
  | nil => exact h
  | cons a l ih => exact ih (HT_applyCbAct a hHT) (InvTb_applyCbAct hHT b u h)

end Softimer

namespace Softimer

/-! ### The master invariant -/

theorem InvTb_of_eq {s s' : SysState} {b b' : Bool} {u : Nat}
    (hst : (s'.timers u).state = (s.timers u).state)
    (hp : pendingFor s' u = pendingFor s u) (hb : b' = b)
    (h : InvTb s b u) : InvTb s' b' u := by
  unfold InvTb at *
  rw [hst, hp, hb]
  exact h

@[simp] theorem pendingFor_applyCmd (s : SysState) (c : Cmd) (u : Nat) :
    pendingFor (applyCmd s c) u = pendingFor s u := by
  unfold pendingFor
  rw [ringList_applyCmd]

theorem MInv_pop_apply {s : SysState} (hM : MInv s) (hne : s.cmdHead ≠ s.cmdTail) :
    MInv (applyCmd { s with cmdTail := (s.cmdTail + 1) % STIM_CMD_ARR_SIZE }
      (s.cmdArr s.cmdTail)) := by
  obtain ⟨hHT, hND, hP, hI⟩ := hM
  have hring := ringList_pop hHT hne
  have hHT1 : HT { s with cmdTail := (s.cmdTail + 1) % STIM_CMD_ARR_SIZE } := HT_pop hHT
  have hHTA := HT_applyCmd (s.cmdArr s.cmdTail) hHT1
  have hpend1 : ∀ u, pendingFor s u =
      (if (s.cmdArr s.cmdTail).stim = u then [s.cmdArr s.cmdTail] else []) ++
        pendingFor { s with cmdTail := (s.cmdTail + 1) % STIM_CMD_ARR_SIZE } u := by
    intro u
    unfold pendingFor
    rw [hring, List.filter_cons]
    by_cases hcu : (s.cmdArr s.cmdTail).stim = u
    · simp [hcu]
    · simp [hcu]
  have hstA : ∀ u, ((applyCmd { s with cmdTail := (s.cmdTail + 1) % STIM_CMD_ARR_SIZE }
      (s.cmdArr s.cmdTail)).timers u).state = (s.timers u).state := by
    intro u
    rw [applyCmd_state]
  have hperA : ∀ u, ((applyCmd { s with cmdTail := (s.cmdTail + 1) % STIM_CMD_ARR_SIZE }
      (s.cmdArr s.cmdTail)).timers u).period_ticks = (s.timers u).period_ticks := by
    intro u
    rw [applyCmd_period]
  have hpA : ∀ u, pendingFor (applyCmd { s with cmdTail := (s.cmdTail + 1) % STIM_CMD_ARR_SIZE }
      (s.cmdArr s.cmdTail)) u =
      pendingFor { s with cmdTail := (s.cmdTail + 1) % STIM_CMD_ARR_SIZE } u := by
    intro u
    exact pendingFor_applyCmd _ _ u
  refine ⟨hHTA, ?_, ?_, ?_⟩
  · show ((applyCmd _ _).active).Nodup
    unfold applyCmd
    cases hct : (s.cmdArr s.cmdTail).type <;> dsimp only
    · exact hND
    · exact stim_list_add_nodup _ _ hND
    · exact List.Nodup.erase _ hND
  · intro u
    rw [hperA u]
    exact hP u
  · intro u
    by_cases hcu : (s.cmdArr s.cmdTail).stim = u
    · -- the popped command is for this timer
      have hpu : pendingFor s u = s.cmdArr s.cmdTail ::
          pendingFor { s with cmdTail := (s.cmdTail + 1) % STIM_CMD_ARR_SIZE } u := by
        rw [hpend1 u, if_pos hcu]
        rfl
      obtain ⟨hI1, hI2⟩ := hI u
      rw [hpu] at hI1 hI2
      cases hct : (s.cmdArr s.cmdTail).type
      · -- CmdType.none: no state or list effect
        rw [foldPending_cons] at hI1
        unfold replayOK at hI2
        simp only [cmdStep, hct] at hI1 hI2
        constructor
        · rw [hstA u, hpA u]
          have hmem : u ∈ (applyCmd { s with cmdTail := (s.cmdTail + 1) % STIM_CMD_ARR_SIZE }
              (s.cmdArr s.cmdTail)).active ↔ u ∈ s.active := by
            unfold applyCmd
            rw [hct]
          rw [decide_eq_decide.mpr hmem]
          exact hI1
        · rw [hpA u]
          have hmem : u ∈ (applyCmd { s with cmdTail := (s.cmdTail + 1) % STIM_CMD_ARR_SIZE }
              (s.cmdArr s.cmdTail)).active ↔ u ∈ s.active := by
            unfold applyCmd
            rw [hct]
          rw [decide_eq_decide.mpr hmem]
          exact hI2
      · -- CmdType.start: the timer ends up linked
        rw [foldPending_cons] at hI1
        unfold replayOK at hI2
        simp only [cmdStep, hct] at hI1 hI2
        have hmem : u ∈ (applyCmd { s with cmdTail := (s.cmdTail + 1) % STIM_CMD_ARR_SIZE }
            (s.cmdArr s.cmdTail)).active := by
          unfold applyCmd
          rw [hct]
          dsimp only
          rw [stim_list_add_mem]
          exact Or.inl hcu.symm
        constructor
        · rw [hstA u, hpA u, decide_eq_true hmem]
          exact hI1
        · rw [hpA u, decide_eq_true hmem]
          exact hI2.2
      · -- CmdType.stop: the timer ends up unlinked
        rw [foldPending_cons] at hI1
        unfold replayOK at hI2
        simp only [cmdStep, hct] at hI1 hI2
        have hmem : u ∉ (applyCmd { s with cmdTail := (s.cmdTail + 1) % STIM_CMD_ARR_SIZE }
            (s.cmdArr s.cmdTail)).active := by
          unfold applyCmd
          rw [hct]
          dsimp only
          intro hmm
          rw [stim_list_del_active] at hmm
          have := (List.Nodup.mem_erase_iff hND).mp hmm
          exact this.1 hcu.symm
        constructor
        · rw [hstA u, hpA u, decide_eq_false hmem]
          exact hI1
        · rw [hpA u, decide_eq_false hmem]
          exact hI2
    · -- the popped command is for another timer
      have hpu : pendingFor s u =
          pendingFor { s with cmdTail := (s.cmdTail + 1) % STIM_CMD_ARR_SIZE } u := by
        rw [hpend1 u, if_neg hcu]
        rfl
      have hmem : u ∈ (applyCmd { s with cmdTail := (s.cmdTail + 1) % STIM_CMD_ARR_SIZE }
          (s.cmdArr s.cmdTail)).active ↔ u ∈ s.active := by
        unfold applyCmd
        cases hct : (s.cmdArr s.cmdTail).type <;> dsimp only
        · exact Iff.rfl
        · rw [stim_list_add_mem]
          constructor
          · intro h
            cases h with
            | inl h => exact absurd h.symm hcu
            | inr h => exact h
          · exact Or.inr
        · rw [stim_list_del_active]
          rw [List.Nodup.mem_erase_iff hND]
          constructor
          · intro h; exact h.2
          · intro h; exact ⟨fun he => hcu he.symm, h⟩
      apply InvTb_of_eq (hstA u) (by rw [hpA u, ← hpu]) (decide_eq_decide.mpr hmem)
      exact hI u

theorem MInv_cmd_handler {s : SysState} (fuel : Nat) (hM : MInv s) :
    MInv (stim_cmd_handler fuel s) := by
  induction fuel generalizing s with
  | zero => exact hM
  | succ fuel ih =>
    rw [stim_cmd_handler]
    split
    · exact hM
    · next hne =>
      rw [mask_eq_mod]
      exact ih (MInv_pop_apply hM hne)

end Softimer

namespace Softimer

/-! ### Frame lemmas for the expiry-loop body -/

@[simp] theorem fireMid_active (s : SysState) (tid : Nat) :
    (fireMid s tid).active = s.active.erase tid := rfl

@[simp] theorem fireMid_systicks (s : SysState) (tid : Nat) :
    (fireMid s tid).systicks = s.systicks := rfl

theorem fireMid_state (s : SysState) (tid u : Nat) :
    ((fireMid s tid).timers u).state = (s.timers u).state := by
  unfold fireMid
  dsimp only
  by_cases h : u = tid
  · subst h
    rw [Function.update_same]
    rfl
  · rw [Function.update_noteq h]
    rfl

theorem fireMid_period (s : SysState) (tid u : Nat) :
    ((fireMid s tid).timers u).period_ticks = (s.timers u).period_ticks := by
  unfold fireMid
  dsimp only
  by_cases h : u = tid
  · subst h
    rw [Function.update_same]
    rfl
  · rw [Function.update_noteq h]
    rfl

theorem fireMid_cb (s : SysState) (tid u : Nat) :
    ((fireMid s tid).timers u).cb = (s.timers u).cb := by
  unfold fireMid
  dsimp only
  by_cases h : u = tid
  · subst h
    rw [Function.update_same]
    rfl
  · rw [Function.update_noteq h]
    rfl

theorem fireMid_expiry (s : SysState) (tid u : Nat) :
    ((fireMid s tid).timers u).expiry_ticks = (s.timers u).expiry_ticks := by
  unfold fireMid
  dsimp only
  by_cases h : u = tid
  · subst h
    rw [Function.update_same]
    rfl
  · rw [Function.update_noteq h]
    rfl

@[simp] theorem pendingFor_fireMid (s : SysState) (tid u : Nat) :
    pendingFor (fireMid s tid) u = pendingFor s u := rfl

@[simp] theorem pendingFor_list_add (s : SysState) (tid now u : Nat) :
    pendingFor (stim_list_add s tid now) u = pendingFor s u := by
  unfold pendingFor ringList qLen
  simp

@[simp] theorem pendingFor_list_del (s : SysState) (tid u : Nat) :
    pendingFor (stim_list_del s tid) u = pendingFor s u := rfl

theorem MInv_fire {s : SysState} {tid : Nat} (now : Nat) (hM : MInv s)
    (hmem : tid ∈ s.active) : MInv (stim_fire now s tid) := by
  obtain ⟨hHT, hND, hP, hI⟩ := hM
  have hND2 : ((fireMid s tid).active).Nodup := by
    rw [fireMid_active]
    exact hND.erase tid
  have hmem2 : ∀ u, u ∈ (fireMid s tid).active ↔ (u ≠ tid ∧ u ∈ s.active) := by
    intro u
    rw [fireMid_active]
    exact List.Nodup.mem_erase_iff hND
  have hI2ne : ∀ u, u ≠ tid →
      InvTb (fireMid s tid) (decide (u ∈ (fireMid s tid).active)) u := by
    intro u hu
    refine InvTb_of_eq (fireMid_state s tid u) (pendingFor_fireMid s tid u) ?_ (hI u)
    rw [decide_eq_decide, hmem2 u]
    constructor
    · intro h
      exact h.2
    · intro h
      exact ⟨hu, h⟩
  have hI2tid : InvTb (fireMid s tid) true tid := by
    refine InvTb_of_eq (fireMid_state s tid tid) (pendingFor_fireMid s tid tid) ?_ (hI tid)
    exact (decide_eq_true hmem).symm
  have hHT2 : HT (fireMid s tid) := HT_fireMid tid hHT
  have hHT3 := HT_runCb ((fireMid s tid).timers tid).cb hHT2
  have hI3ne : ∀ u, u ≠ tid →
      InvTb (runCb (fireMid s tid) ((fireMid s tid).timers tid).cb)
        (decide (u ∈ (fireMid s tid).active)) u := by
    intro u hu
    exact InvTb_runCb hHT2 _ u (hI2ne u hu)
  have hI3tid : InvTb (runCb (fireMid s tid) ((fireMid s tid).timers tid).cb) true tid :=
    InvTb_runCb hHT2 true tid hI2tid
  have hP3 : PeriodsOK (runCb (fireMid s tid) ((fireMid s tid).timers tid).cb) := by
    intro u
    rw [runCb_period, fireMid_period]
    exact hP u
  have hA3 : (runCb (fireMid s tid) ((fireMid s tid).timers tid).cb).active =
      s.active.erase tid := by
    rw [runCb_active, fireMid_active]
  have htid3 : tid ∉ (runCb (fireMid s tid) ((fireMid s tid).timers tid).cb).active := by
    rw [hA3]
    intro hmm
    exact ((List.Nodup.mem_erase_iff hND).mp hmm).1 rfl
  unfold stim_fire
  dsimp only
  split
  · next hst =>
    refine ⟨?_, ?_, ?_, ?_⟩
    · constructor
      · simpa using hHT3.1
      · simpa using hHT3.2
    · apply stim_list_add_nodup
      show ((runCb (fireMid s tid) ((fireMid s tid).timers tid).cb).active).Nodup
      rw [hA3]
      exact hND.erase tid
    · intro u
      show ((stim_list_add _ tid now).timers u).period_ticks ≤ STIM_MAX_TICKS
      rw [stim_list_add_timers]
      dsimp only
      by_cases hu : u = tid
      · subst hu
        rw [Function.update_same]
        exact hP3 u
      · rw [Function.update_noteq hu]
        exact hP3 u
    · intro u
      by_cases hu : u = tid
      · subst hu
        refine InvTb_of_eq ?_ ?_ ?_ hI3tid
        · rw [stim_list_add_timers]
          dsimp only
          rw [Function.update_same]
        · rw [pendingFor_list_add]
          unfold pendingFor ringList qLen
          rfl
        · apply decide_eq_true
          rw [stim_list_add_mem]
          exact Or.inl rfl
      · refine InvTb_of_eq ?_ ?_ ?_ (hI3ne u hu)
        · rw [stim_list_add_timers]
          dsimp only
          rw [Function.update_noteq hu]
        · rw [pendingFor_list_add]
          unfold pendingFor ringList qLen
          rfl
        · rw [decide_eq_decide]
          rw [stim_list_add_mem]
          constructor
          · intro h
            cases h with
            | inl h => exact absurd h hu
            | inr h =>
              have h2 : u ∈ (runCb (fireMid s tid) ((fireMid s tid).timers tid).cb).active := h
              rw [hA3] at h2
              rw [fireMid_active]
              rw [List.Nodup.mem_erase_iff hND] at h2 ⊢
              exact h2
          · intro h
            apply Or.inr
            show u ∈ (runCb (fireMid s tid) ((fireMid s tid).timers tid).cb).active
            rw [hA3]
            rw [fireMid_active] at h
            exact h
  · next hst =>
    have hst3 : ((runCb (fireMid s tid) ((fireMid s tid).timers tid).cb).timers tid).state = false := by
      rcases Bool.eq_false_or_eq_true
        ((runCb (fireMid s tid) ((fireMid s tid).timers tid).cb).timers tid).state with h | h
      · exact absurd h hst
      · exact h
    refine ⟨hHT3, by rw [hA3]; exact hND.erase tid, hP3, ?_⟩
    intro u
    by_cases hu : u = tid
    · subst hu
      constructor
      · rw [decide_eq_false htid3]
        rw [hst3]
        obtain ⟨h1, h2⟩ := hI3tid
        rw [hst3] at h1
        exact (foldPending_mono h1.symm).symm
      · rw [decide_eq_false htid3]
        exact replayOK_false_of_true hI3tid.2
    · have hb : decide (u ∈ (runCb (fireMid s tid) ((fireMid s tid).timers tid).cb).active) =
          decide (u ∈ (fireMid s tid).active) := by
        rw [decide_eq_decide, runCb_active]
      rw [hb]
      exact hI3ne u hu

end Softimer

namespace Softimer

theorem MInv_loop {s : SysState} (fuel now : Nat) (hM : MInv s) :
    MInv (stim_handler_loop fuel now s) := by
  induction fuel generalizing s with
  | zero => exact hM
  | succ fuel ih =>
    rw [stim_handler_loop]
    cases ha : s.active with
    | nil => exact hM
    | cons tid rest =>
      dsimp only
      split
      · exact ih (MInv_fire now hM (by rw [ha]; exact List.mem_cons_self tid rest))
      · exact hM

theorem MInv_handler {s : SysState} (fuel : Nat) (hM : MInv s) :
    MInv (stim_handler fuel s) :=
  MInv_loop fuel _ (MInv_cmd_handler STIM_CMD_ARR_SIZE hM)

theorem MInv_tick {s : SysState} (hM : MInv s) : MInv (stim_systick_inc s) := by
  obtain ⟨hHT, hND, hP, hI⟩ := hM
  exact ⟨hHT, hND, hP, fun u => hI u⟩

theorem MInv_start {s : SysState} (tid : Nat) (hM : MInv s) :
    MInv ((stim_start s tid).2) := by
  obtain ⟨hHT, hND, hP, hI⟩ := hM
  refine ⟨HT_start tid hHT, ?_, ?_, ?_⟩
  · rw [stim_start_active]
    exact hND
  · intro u
    rw [stim_start_period]
    exact hP u
  · intro u
    have hb : decide (u ∈ ((stim_start s tid).2).active) = decide (u ∈ s.active) := by
      rw [stim_start_active]
    rw [hb]
    exact InvTb_start hHT _ u (hI u)

theorem MInv_stop {s : SysState} (tid : Nat) (hM : MInv s) :
    MInv ((stim_stop s tid).2) := by
  obtain ⟨hHT, hND, hP, hI⟩ := hM
  refine ⟨HT_stop tid hHT, ?_, ?_, ?_⟩
  · rw [stim_stop_active]
    exact hND
  · intro u
    rw [stim_stop_period]
    exact hP u
  · intro u
    have hb : decide (u ∈ ((stim_stop s tid).2).active) = decide (u ∈ s.active) := by
      rw [stim_stop_active]
    rw [hb]
    exact InvTb_stop hHT _ u (hI u)

theorem MInv_init {s : SysState} (tid period : Nat) (cb : List CbAct)
    (hM : MInv s) (hna : tid ∉ s.active)
    (hnp : ∀ c ∈ ringList s, c.stim ≠ tid) :
    MInv ((stim_init s tid period cb).2) := by
  obtain ⟨hHT, hND, hP, hI⟩ := hM
  unfold stim_init
  dsimp only
  split
  · exact ⟨hHT, hND, hP, hI⟩
  · next hcond =>
    have hple : period ≤ STIM_MAX_TICKS := by
      rcases Classical.em (period > STIM_MAX_TICKS) with h | h
      · exact absurd (Or.inl h) hcond
      · omega
    have hpend : pendingFor s tid = [] := by
      unfold pendingFor
      apply List.filter_eq_nil_iff.mpr
      intro c hc
      simp [hnp c hc]
    refine ⟨hHT, hND, ?_, ?_⟩
    · intro u
      dsimp only
      by_cases hu : u = tid
      · subst hu
        rw [Function.update_same]
        exact hple
      · rw [Function.update_noteq hu]
        exact hP u
    · intro u
      by_cases hu : u = tid
      · subst hu
        constructor
        · dsimp only
          rw [Function.update_same]
          show false = foldPending (pendingFor s u) _
          rw [hpend]
          rw [decide_eq_false hna]
          rfl
        · show replayOK _ (pendingFor s u)
          rw [hpend]
          trivial
      · refine InvTb_of_eq ?_ ?_ ?_ (hI u)
        · dsimp only
          rw [Function.update_noteq hu]
        · rfl
        · rfl

theorem MInv_setPeriod {s : SysState} (tid p : Nat) (hM : MInv s) :
    MInv (stim_set_period_ticks s tid p) := by
  obtain ⟨hHT, hND, hP, hI⟩ := hM
  unfold stim_set_period_ticks
  split
  · exact ⟨hHT, hND, hP, hI⟩
  · next hcond =>
    have hple : p ≤ STIM_MAX_TICKS := by
      rcases Classical.em (p > STIM_MAX_TICKS) with h | h
      · exact absurd (Or.inl h) hcond
      · omega
    refine ⟨hHT, hND, ?_, ?_⟩
    · intro u
      dsimp only
      by_cases hu : u = tid
      · subst hu
        rw [Function.update_same]
        exact hple
      · rw [Function.update_noteq hu]
        exact hP u
    · intro u
      refine InvTb_of_eq ?_ ?_ ?_ (hI u)
      · dsimp only
        by_cases hu : u = tid
        · subst hu
          rw [Function.update_same]
        · rw [Function.update_noteq hu]
      · rfl
      · rfl

theorem MInv_setCount {s : SysState} (tid c : Nat) (hM : MInv s) :
    MInv (stim_set_count s tid c) := by
  obtain ⟨hHT, hND, hP, hI⟩ := hM
  refine ⟨hHT, hND, ?_, ?_⟩
  · intro u
    show ((stim_set_count s tid c).timers u).period_ticks ≤ _
    unfold stim_set_count
    dsimp only
    by_cases hu : u = tid
    · subst hu
      rw [Function.update_same]
      exact hP u
    · rw [Function.update_noteq hu]
      exact hP u
  · intro u
    refine InvTb_of_eq ?_ ?_ ?_ (hI u)
    · show ((stim_set_count s tid c).timers u).state = _
      unfold stim_set_count
      dsimp only
      by_cases hu : u = tid
      · subst hu
        rw [Function.update_same]
      · rw [Function.update_noteq hu]
    · rfl
    · rfl

theorem MInv_registerCb {s : SysState} (tid : Nat) (cb : List CbAct) (hM : MInv s) :
    MInv (stim_register_callback s tid cb) := by
  obtain ⟨hHT, hND, hP, hI⟩ := hM
  refine ⟨hHT, hND, ?_, ?_⟩
  · intro u
    show ((stim_register_callback s tid cb).timers u).period_ticks ≤ _
    unfold stim_register_callback
    dsimp only
    by_cases hu : u = tid
    · subst hu
      rw [Function.update_same]
      exact hP u
    · rw [Function.update_noteq hu]
      exact hP u
  · intro u
    refine InvTb_of_eq ?_ ?_ ?_ (hI u)
    · show ((stim_register_callback s tid cb).timers u).state = _
      unfold stim_register_callback
      dsimp only
      by_cases hu : u = tid
      · subst hu
        rw [Function.update_same]
      · rw [Function.update_noteq hu]
    · rfl
    · rfl

theorem MInv_applyOp {s : SysState} {op : Op} (hok : OpOK s op) (hM : MInv s) :
    MInv (applyOp s op) := by
  cases op with
  | init tid period cb => exact MInv_init tid period cb hM hok.1 hok.2
  | start tid => exact MInv_start tid hM
  | stop tid => exact MInv_stop tid hM
  | tick => exact MInv_tick hM
  | handler fuel => exact MInv_handler fuel hM
  | setPeriod tid p => exact MInv_setPeriod tid p hM
  | setCount tid c => exact MInv_setCount tid c hM
  | registerCb tid cb => exact MInv_registerCb tid cb hM

theorem MInv_initState : MInv initState := by
  refine ⟨⟨?_, ?_⟩, List.nodup_nil, ?_, ?_⟩
  · norm_num [initState, STIM_CMD_ARR_SIZE]
  · norm_num [initState, STIM_CMD_ARR_SIZE]
  · intro u
    norm_num [initState, initStim, STIM_MAX_TICKS]
  · intro u
    exact ⟨rfl, trivial⟩

theorem Reachable_MInv {s : SysState} (h : Reachable s) : MInv s := by
  induction h with
  | refl => exact MInv_initState
  | step hr hok ih => exact MInv_applyOp hok ih

end Softimer

namespace Softimer

/-- C1 is false as stated: after `stim_init(t, 5); stim_start(t)` and before
any dispatch, the timer's state is STIM_ENABLE and no Stop command is
pending, yet the timer is not linked into the active list (the Start
command is still sitting in the queue). -/
theorem C1_counterexample :
    ¬ C1Claim ∧
      Reachable ((stim_start (stim_init initState 0 5 []).2 0).2) ∧
      (((stim_start (stim_init initState 0 5 []).2 0).2).timers 0).state = true ∧
      ¬ StopPending ((stim_start (stim_init initState 0 5 []).2 0).2) 0 ∧
      0 ∉ ((stim_start (stim_init initState 0 5 []).2 0).2).active := by
  have h1 : Reachable (applyOp initState (Op.init 0 5 [])) :=
    Reachable.step Reachable.refl ⟨by decide, by decide⟩
  have h2 : Reachable (applyOp (applyOp initState (Op.init 0 5 [])) (Op.start 0)) :=
    Reachable.step h1 trivial
  refine ⟨?_, h2, by decide, by decide, by decide⟩
  intro hcl
  have h3 := (hcl _ h2 0).mpr ⟨by decide, by decide⟩
  revert h3
  decide

/-- C1 (amended): in every reachable state, a timer's state field equals the
result of replaying its pending queued commands, in FIFO order, on its
current linkage (Start links, Stop unlinks): the state field records the
linkage the timer will have once the queue is drained.  In particular, when
no command for the timer is pending, it is linked iff its state is
STIM_ENABLE; a pending Start (state Active, not yet linked) and a pending
Stop (state Idle, still linked) are the two transient exceptions the
original claim misses. -/
theorem C1_linkage_matches_state_after_replay {s : SysState} (hs : Reachable s)
    (tid : Nat) :
    (s.timers tid).state =
        foldPending (pendingFor s tid) (decide (tid ∈ s.active)) ∧
      (pendingFor s tid = [] → (tid ∈ s.active ↔ (s.timers tid).state = true)) := by
  obtain ⟨-, -, -, hI⟩ := Reachable_MInv hs
  obtain ⟨h1, h2⟩ := hI tid
  refine ⟨h1, fun hp => ?_⟩
  rw [hp] at h1
  have h3 : (s.timers tid).state = decide (tid ∈ s.active) := h1
  constructor
  · intro hm
    rw [h3, decide_eq_true hm]
  · intro hst
    rw [h3] at hst
    exact of_decide_eq_true hst

/-- Witness for the amended C1 on a concrete reachable state. -/
theorem C1_linkage_matches_state_after_replay_witness :
    (initState.timers 0).state =
        foldPending (pendingFor initState 0) (decide (0 ∈ initState.active)) ∧
      (pendingFor initState 0 = [] →
        (0 ∈ initState.active ↔ (initState.timers 0).state = true)) :=
  C1_linkage_matches_state_after_replay Reachable.refl 0

end Softimer

namespace Softimer

/-! ### Wraparound comparator arithmetic -/

theorem sdiff_eq_of_window {a b : Nat} (h1 : -(HALF : Int) ≤ (a : Int) - b)
    (h2 : (a : Int) - b ≤ (HALF : Int) - 1) : sdiff a b = (a : Int) - b := by
  unfold sdiff
  dsimp only
  simp only [U32, HALF] at *
  split
  · next hlt => omega
  · next hge => omega

theorem sdiff_eq_of_inWindow {a now : Nat} (h : InWindow a now) :
    sdiff a now = (a : Int) - now := by
  apply sdiff_eq_of_window
  · have := h.1
    simp only [HALF] at *
    omega
  · have := h.2
    simp only [HALF] at *
    omega

theorem sdiff_lt_iff_of_inWindow {a b now : Nat} (ha : InWindow a now)
    (hb : InWindow b now) : (sdiff a now < sdiff b now ↔ a < b) := by
  rw [sdiff_eq_of_inWindow ha, sdiff_eq_of_inWindow hb]
  omega

theorem sdiff_le_iff_of_inWindow {a b now : Nat} (ha : InWindow a now)
    (hb : InWindow b now) : (sdiff a now ≤ sdiff b now ↔ a ≤ b) := by
  rw [sdiff_eq_of_inWindow ha, sdiff_eq_of_inWindow hb]
  omega

theorem le_now_of_expired {a now : Nat} (ha : InWindow a now)
    (h : sdiff a now ≤ 0) : a ≤ now := by
  rw [sdiff_eq_of_inWindow ha] at h
  omega

/-! ### The sortedness invariant of the active list -/

theorem RG_Reachable {s : SysState} (h : RG s) : Reachable s := by
  induction h with
  | refl => exact Reachable.refl
  | step hr hok hw ih => exact Reachable.step ih hok

theorem RG_Wnd {s : SysState} (h : RG s) : Wnd s := by
  cases h with
  | refl =>
    intro t ht
    exact absurd ht (List.not_mem_nil t)
  | step hr hok hw => exact hw

theorem InWindow_of_WndUpper {s : SysState} {t : Nat} (hW : Wnd s)
    (hU : UpperOK s) (ht : t ∈ s.active) :
    InWindow (s.timers t).expiry_ticks s.systicks :=
  ⟨hW t ht, hU t ht⟩

/-- The linear-scan insert keeps the list sorted by expiry when every
involved expiry is inside the comparator window. -/
theorem listAddAux_pairwise (timers : Nat → Stim) (now : Nat) (l : List Nat)
    (tid : Nat)
    (hsort : l.Pairwise (fun u v => (timers u).expiry_ticks ≤ (timers v).expiry_ticks))
    (hw : ∀ u ∈ l, InWindow (timers u).expiry_ticks now)
    (hwt : InWindow (timers tid).expiry_ticks now) :
    (listAddAux timers (timers tid).expiry_ticks now l tid).Pairwise
      (fun u v => (timers u).expiry_ticks ≤ (timers v).expiry_ticks) := by
  induction l with
  | nil => exact List.pairwise_singleton _ _
  | cons e rest ih =>
    rw [listAddAux]
    split
    · next hlt =>
      have he := hw e (List.mem_cons_self e rest)
      have hte : (timers tid).expiry_ticks < (timers e).expiry_ticks :=
        (sdiff_lt_iff_of_inWindow hwt he).mp hlt
      apply List.Pairwise.cons
      · intro v hv
        cases List.mem_cons.mp hv with
        | inl h =>
          subst h
          exact Nat.le_of_lt hte
        | inr h =>
          have hev := (List.pairwise_cons.mp hsort).1 v h
          exact Nat.le_of_lt (Nat.lt_of_lt_of_le hte hev)
      · exact hsort
    · next hge =>
      have he := hw e (List.mem_cons_self e rest)
      have het : (timers e).expiry_ticks ≤ (timers tid).expiry_ticks := by
        have h2 : sdiff (timers e).expiry_ticks now ≤ sdiff (timers tid).expiry_ticks now := by
          omega
        exact (sdiff_le_iff_of_inWindow he hwt).mp h2
      apply List.Pairwise.cons
      · intro v hv
        rw [listAddAux_mem] at hv
        cases hv with
        | inl h =>
          subst h
          exact het
        | inr h => exact (List.pairwise_cons.mp hsort).1 v h
      · exact ih (List.pairwise_cons.mp hsort).2 (fun u hu => hw u (List.mem_cons_of_mem e hu))

end Softimer

namespace Softimer

theorem stim_fire_systicks (now : Nat) (s : SysState) (tid : Nat) :
    (stim_fire now s tid).systicks = s.systicks := by
  unfold stim_fire
  dsimp only
  split
  · simp
  · simp

theorem cmd_handler_systicks (fuel : Nat) (s : SysState) :
    (stim_cmd_handler fuel s).systicks = s.systicks := by
  induction fuel generalizing s with
  | zero => rfl
  | succ fuel ih =>
    rw [stim_cmd_handler]
    split
    · rfl
    · rw [ih]
      simp

theorem SInv_pop_apply {s : SysState} (hM : MInv s) (hne : s.cmdHead ≠ s.cmdTail)
    (hW : Wnd s) (hU : UpperOK s) (hS : SortedExp s) :
    Wnd (applyCmd { s with cmdTail := (s.cmdTail + 1) % STIM_CMD_ARR_SIZE }
        (s.cmdArr s.cmdTail)) ∧
      UpperOK (applyCmd { s with cmdTail := (s.cmdTail + 1) % STIM_CMD_ARR_SIZE }
        (s.cmdArr s.cmdTail)) ∧
      SortedExp (applyCmd { s with cmdTail := (s.cmdTail + 1) % STIM_CMD_ARR_SIZE }
        (s.cmdArr s.cmdTail)) := by
  obtain ⟨hHT, hND, hP, hI⟩ := hM
  have hring := ringList_pop hHT hne
  unfold applyCmd
  cases hct : (s.cmdArr s.cmdTail).type <;> dsimp only
  · exact ⟨hW, hU, hS⟩
  · -- Start: by the replay invariant the target timer is not linked
    have hpu : pendingFor s (s.cmdArr s.cmdTail).stim = s.cmdArr s.cmdTail ::
        pendingFor { s with cmdTail := (s.cmdTail + 1) % STIM_CMD_ARR_SIZE }
          (s.cmdArr s.cmdTail).stim := by
      unfold pendingFor
      rw [hring, List.filter_cons]
      simp
    have hrep := (hI (s.cmdArr s.cmdTail).stim).2
    rw [hpu] at hrep
    unfold replayOK at hrep
    simp only [hct] at hrep
    have hnm : (s.cmdArr s.cmdTail).stim ∉ s.active := by
      intro hmm
      rw [decide_eq_true hmm] at hrep
      exact Bool.true_eq_false.mp hrep.1
    have hwin : InWindow
        ((s.timers (s.cmdArr s.cmdTail).stim).period_ticks + s.systicks) s.systicks := by
      constructor
      · simp only [HALF]
        omega
      · have hple := hP (s.cmdArr s.cmdTail).stim
        simp only [STIM_MAX_TICKS, HALF] at *
        omega
    refine ⟨?_, ?_, ?_⟩
    · intro t ht
      rw [stim_list_add_systicks]
      rw [stim_list_add_mem] at ht
      cases ht with
      | inl h =>
        subst h
        rw [stim_list_add_timers]
        dsimp only
        rw [Function.update_same]
        exact hwin.1
      | inr h =>
        have hne2 : t ≠ (s.cmdArr s.cmdTail).stim := fun he => hnm (he ▸ h)
        rw [stim_list_add_timers]
        dsimp only
        rw [Function.update_noteq hne2]
        exact hW t h
    · intro t ht
      rw [stim_list_add_systicks]
      rw [stim_list_add_mem] at ht
      cases ht with
      | inl h =>
        subst h
        rw [stim_list_add_timers]
        dsimp only
        rw [Function.update_same]
        exact hwin.2
      | inr h =>
        have hne2 : t ≠ (s.cmdArr s.cmdTail).stim := fun he => hnm (he ▸ h)
        rw [stim_list_add_timers]
        dsimp only
        rw [Function.update_noteq hne2]
        exact hU t h
    · show ((stim_list_add _ _ _).active).Pairwise _
      unfold stim_list_add
      split
      · next hmem =>
        exact absurd (by simpa using hmem) hnm
      · apply listAddAux_pairwise
        · apply List.Pairwise.imp_of_mem ?_ hS
          intro x y hx hy hxy
          have hnex : x ≠ (s.cmdArr s.cmdTail).stim := fun he => hnm (he ▸ hx)
          have hney : y ≠ (s.cmdArr s.cmdTail).stim := fun he => hnm (he ▸ hy)
          dsimp only
          rw [Function.update_noteq hnex, Function.update_noteq hney]
          exact hxy
        · intro u hu
          have hneu : u ≠ (s.cmdArr s.cmdTail).stim := fun he => hnm (he ▸ hu)
          dsimp only
          rw [Function.update_noteq hneu]
          exact ⟨hW u hu, hU u hu⟩
        · dsimp only
          rw [Function.update_same]
          exact hwin
  · -- Stop: removal keeps a sublist
    refine ⟨?_, ?_, ?_⟩
    · intro t ht
      exact hW t (List.mem_of_mem_erase ht)
    · intro t ht
      exact hU t (List.mem_of_mem_erase ht)
    · exact hS.sublist (List.erase_sublist _ _)

theorem SInv_cmd_handler {s : SysState} (fuel : Nat) (hM : MInv s)
    (hW : Wnd s) (hU : UpperOK s) (hS : SortedExp s) :
    Wnd (stim_cmd_handler fuel s) ∧ UpperOK (stim_cmd_handler fuel s) ∧
      SortedExp (stim_cmd_handler fuel s) := by
  induction fuel generalizing s with
  | zero => exact ⟨hW, hU, hS⟩
  | succ fuel ih =>
    rw [stim_cmd_handler]
    split
    · exact ⟨hW, hU, hS⟩
    · next hne =>
      rw [mask_eq_mod]
      obtain ⟨hW2, hU2, hS2⟩ := SInv_pop_apply hM hne hW hU hS
      exact ih (MInv_pop_apply hM hne) hW2 hU2 hS2

theorem SInv_fire {s : SysState} {tid : Nat} {rest : List Nat} (hM : MInv s)
    (hW : Wnd s) (hU : UpperOK s) (hS : SortedExp s)
    (ha : s.active = tid :: rest)
    (hexp : sdiff (s.timers tid).expiry_ticks s.systicks ≤ 0) :
    Wnd (stim_fire s.systicks s tid) ∧ UpperOK (stim_fire s.systicks s tid) ∧
      SortedExp (stim_fire s.systicks s tid) := by
  obtain ⟨hHT, hND, hP, hI⟩ := hM
  have htm : tid ∈ s.active := by
    rw [ha]
    exact List.mem_cons_self tid rest
  have hwt := InWindow_of_WndUpper hW hU htm
  have hold_le : (s.timers tid).expiry_ticks ≤ s.systicks := le_now_of_expired hwt hexp
  have hmem3 : ∀ u, u ∈ (runCb (fireMid s tid) ((fireMid s tid).timers tid).cb).active ↔
      (u ≠ tid ∧ u ∈ s.active) := by
    intro u
    rw [runCb_active, fireMid_active]
    exact List.Nodup.mem_erase_iff hND
  have hexp3 : ∀ u, ((runCb (fireMid s tid) ((fireMid s tid).timers tid).cb).timers u).expiry_ticks =
      (s.timers u).expiry_ticks := by
    intro u
    rw [runCb_expiry, fireMid_expiry]
  have hper3 : ∀ u, ((runCb (fireMid s tid) ((fireMid s tid).timers tid).cb).timers u).period_ticks =
      (s.timers u).period_ticks := by
    intro u
    rw [runCb_period, fireMid_period]
  unfold stim_fire
  dsimp only
  split
  · next hst =>
    have hwinE : InWindow
        (((runCb (fireMid s tid) ((fireMid s tid).timers tid).cb).timers tid).expiry_ticks +
          ((runCb (fireMid s tid) ((fireMid s tid).timers tid).cb).timers tid).period_ticks)
        s.systicks := by
      rw [hexp3 tid, hper3 tid]
      have hple := hP tid
      constructor
      · have := hwt.1
        simp only [HALF] at *
        omega
      · simp only [STIM_MAX_TICKS, HALF] at *
        omega
    refine ⟨?_, ?_, ?_⟩
    · intro t ht
      rw [stim_list_add_systicks]
      simp only [runCb_systicks, fireMid_systicks]
      rw [stim_list_add_mem] at ht
      cases ht with
      | inl h =>
        subst h
        rw [stim_list_add_timers]
        dsimp only
        rw [Function.update_same]
        exact hwinE.1
      | inr h =>
        have h2 : t ≠ tid ∧ t ∈ s.active := (hmem3 t).mp h
        rw [stim_list_add_timers]
        dsimp only
        rw [Function.update_noteq h2.1, hexp3 t]
        exact hW t h2.2
    · intro t ht
      rw [stim_list_add_systicks]
      simp only [runCb_systicks, fireMid_systicks]
      rw [stim_list_add_mem] at ht
      cases ht with
      | inl h =>
        subst h
        rw [stim_list_add_timers]
        dsimp only
        rw [Function.update_same]
        exact hwinE.2
      | inr h =>
        have h2 : t ≠ tid ∧ t ∈ s.active := (hmem3 t).mp h
        rw [stim_list_add_timers]
        dsimp only
        rw [Function.update_noteq h2.1, hexp3 t]
        exact hU t h2.2
    · show ((stim_list_add _ _ _).active).Pairwise _
      unfold stim_list_add
      split
      · next hmm =>
        have h2 := (hmem3 tid).mp (by simpa using hmm)
        exact absurd rfl h2.1
      · apply listAddAux_pairwise
        · have hsub : SortedExp (runCb (fireMid s tid) ((fireMid s tid).timers tid).cb) := by
            show ((runCb (fireMid s tid) ((fireMid s tid).timers tid).cb).active).Pairwise _
            rw [runCb_active, fireMid_active]
            apply List.Pairwise.imp_of_mem ?_ (hS.sublist (List.erase_sublist _ _))
            intro x y hx hy hxy
            rw [hexp3 x, hexp3 y]
            exact hxy
          apply List.Pairwise.imp_of_mem ?_ hsub
          intro x y hx hy hxy
          have hnex : x ≠ tid := ((hmem3 x).mp hx).1
          have hney : y ≠ tid := ((hmem3 y).mp hy).1
          dsimp only
          rw [Function.update_noteq hnex, Function.update_noteq hney]
          exact hxy
        · intro u hu
          have h2 := (hmem3 u).mp hu
          dsimp only
          rw [Function.update_noteq h2.1, hexp3 u]
          exact ⟨hW u h2.2, hU u h2.2⟩
        · dsimp only
          rw [Function.update_same]
          exact hwinE
  · next hst =>
    refine ⟨?_, ?_, ?_⟩
    · intro t ht
      have h2 := (hmem3 t).mp ht
      rw [runCb_systicks, fireMid_systicks, hexp3 t]
      exact hW t h2.2
    · intro t ht
      have h2 := (hmem3 t).mp ht
      rw [runCb_systicks, fireMid_systicks, hexp3 t]
      exact hU t h2.2
    · show ((runCb (fireMid s tid) ((fireMid s tid).timers tid).cb).active).Pairwise _
      rw [runCb_active, fireMid_active]
      apply List.Pairwise.imp_of_mem ?_ (hS.sublist (List.erase_sublist _ _))
      intro x y hx hy hxy
      rw [hexp3 x, hexp3 y]
      exact hxy

theorem SInv_loop {s : SysState} {fuel now : Nat} (hM : MInv s)
    (hW : Wnd s) (hU : UpperOK s) (hS : SortedExp s) (hnow : now = s.systicks) :
    Wnd (stim_handler_loop fuel now s) ∧ UpperOK (stim_handler_loop fuel now s) ∧
      SortedExp (stim_handler_loop fuel now s) := by
  induction fuel generalizing s with
  | zero => exact ⟨hW, hU, hS⟩
  | succ fuel ih =>
    rw [stim_handler_loop]
    cases ha : s.active with
    | nil => exact ⟨hW, hU, hS⟩
    | cons tid rest =>
      dsimp only
      split
      · next hexp =>
        subst hnow
        obtain ⟨hW2, hU2, hS2⟩ := SInv_fire hM hW hU hS ha hexp
        have hM2 := MInv_fire s.systicks ⟨hM.1, hM.2.1, hM.2.2.1, hM.2.2.2⟩
          (by rw [ha]; exact List.mem_cons_self tid rest)
        exact ih hM2 hW2 hU2 hS2 (stim_fire_systicks s.systicks s tid).symm
      · exact ⟨hW, hU, hS⟩

theorem SInv_handler {s : SysState} (fuel : Nat) (hM : MInv s)
    (hW : Wnd s) (hU : UpperOK s) (hS : SortedExp s) :
    Wnd (stim_handler fuel s) ∧ UpperOK (stim_handler fuel s) ∧
      SortedExp (stim_handler fuel s) := by
  obtain ⟨hW1, hU1, hS1⟩ := SInv_cmd_handler STIM_CMD_ARR_SIZE hM hW hU hS
  exact SInv_loop (MInv_cmd_handler STIM_CMD_ARR_SIZE hM) hW1 hU1 hS1 rfl

end Softimer

namespace Softimer

theorem SInv_step {s : SysState} {op : Op} (hok : OpOK s op) (hM : MInv s)
    (hW : Wnd s) (hU : UpperOK s) (hS : SortedExp s) :
    UpperOK (applyOp s op) ∧ SortedExp (applyOp s op) := by
  cases op with
  | init tid period cb =>
    show UpperOK (stim_init s tid period cb).2 ∧ SortedExp (stim_init s tid period cb).2
    unfold stim_init
    dsimp only
    split
    · exact ⟨hU, hS⟩
    · constructor
      · intro t ht
        dsimp only at ht ⊢
        have hne : t ≠ tid := fun he => hok.1 (he ▸ ht)
        rw [Function.update_noteq hne]
        exact hU t ht
      · apply List.Pairwise.imp_of_mem ?_ hS
        intro x y hx hy hxy
        dsimp only
        have hnex : x ≠ tid := fun he => hok.1 (he ▸ hx)
        have hney : y ≠ tid := fun he => hok.1 (he ▸ hy)
        rw [Function.update_noteq hnex, Function.update_noteq hney]
        exact hxy
  | start tid =>
    show UpperOK (stim_start s tid).2 ∧ SortedExp (stim_start s tid).2
    constructor
    · intro t ht
      rw [stim_start_active] at ht
      show ((stim_start s tid).2.timers t).expiry_ticks ≤ _
      rw [stim_start_expiry, stim_start_systicks]
      exact hU t ht
    · show (((stim_start s tid).2).active).Pairwise _
      rw [stim_start_active]
      apply List.Pairwise.imp ?_ hS
      intro x y hxy
      rw [stim_start_expiry, stim_start_expiry]
      exact hxy
  | stop tid =>
    show UpperOK (stim_stop s tid).2 ∧ SortedExp (stim_stop s tid).2
    constructor
    · intro t ht
      rw [stim_stop_active] at ht
      show ((stim_stop s tid).2.timers t).expiry_ticks ≤ _
      rw [stim_stop_expiry, stim_stop_systicks]
      exact hU t ht
    · show (((stim_stop s tid).2).active).Pairwise _
      rw [stim_stop_active]
      apply List.Pairwise.imp ?_ hS
      intro x y hxy
      rw [stim_stop_expiry, stim_stop_expiry]
      exact hxy
  | tick =>
    constructor
    · intro t ht
      have := hU t ht
      show (s.timers t).expiry_ticks ≤ s.systicks + 1 + (HALF - 1)
      omega
    · exact hS
  | handler fuel =>
    obtain ⟨hW2, hU2, hS2⟩ := SInv_handler fuel hM hW hU hS
    exact ⟨hU2, hS2⟩
  | setPeriod tid p =>
    show UpperOK (stim_set_period_ticks s tid p) ∧ SortedExp (stim_set_period_ticks s tid p)
    have hexp : ∀ u, ((stim_set_period_ticks s tid p).timers u).expiry_ticks =
        (s.timers u).expiry_ticks := by
      intro u
      unfold stim_set_period_ticks
      split
      · rfl
      · dsimp only
        by_cases hu : u = tid
        · subst hu
          rw [Function.update_same]
        · rw [Function.update_noteq hu]
    have hact : (stim_set_period_ticks s tid p).active = s.active := by
      unfold stim_set_period_ticks
      split
      · rfl
      · rfl
    have hsys : (stim_set_period_ticks s tid p).systicks = s.systicks := by
      unfold stim_set_period_ticks
      split
      · rfl
      · rfl
    constructor
    · intro t ht
      rw [hact] at ht
      rw [hexp t, hsys]
      exact hU t ht
    · show ((stim_set_period_ticks s tid p).active).Pairwise _
      rw [hact]
      apply List.Pairwise.imp ?_ hS
      intro x y hxy
      rw [hexp x, hexp y]
      exact hxy
  | setCount tid c =>
    show UpperOK (stim_set_count s tid c) ∧ SortedExp (stim_set_count s tid c)
    have hexp : ∀ u, ((stim_set_count s tid c).timers u).expiry_ticks =
        (s.timers u).expiry_ticks := by
      intro u
      unfold stim_set_count
      dsimp only
      by_cases hu : u = tid
      · subst hu
        rw [Function.update_same]
      · rw [Function.update_noteq hu]
    constructor
    · intro t ht
      rw [hexp t]
      exact hU t ht
    · apply List.Pairwise.imp ?_ hS
      intro x y hxy
      rw [hexp x, hexp y]
      exact hxy
  | registerCb tid cb =>
    show UpperOK (stim_register_callback s tid cb) ∧ SortedExp (stim_register_callback s tid cb)
    have hexp : ∀ u, ((stim_register_callback s tid cb).timers u).expiry_ticks =
        (s.timers u).expiry_ticks := by
      intro u
      unfold stim_register_callback
      dsimp only
      by_cases hu : u = tid
      · subst hu
        rw [Function.update_same]
      · rw [Function.update_noteq hu]
    constructor
    · intro t ht
      rw [hexp t]
      exact hU t ht
    · apply List.Pairwise.imp ?_ hS
      intro x y hxy
      rw [hexp x, hexp y]
      exact hxy

theorem RG_SInv {s : SysState} (h : RG s) : UpperOK s ∧ SortedExp s := by
  induction h with
  | refl =>
    constructor
    · intro t ht
      exact absurd ht (List.not_mem_nil t)
    · exact List.Pairwise.nil
  | step hr hok hw ih =>
    exact SInv_step hok (Reachable_MInv (RG_Reachable hr)) (RG_Wnd hr) ih.1 ih.2

end Softimer

namespace Softimer

/-- C2 is false as stated: `c2sBad` is reachable, satisfies the stated
proviso (no listed expiry more than 2^31 ticks in the past at this state),
yet its active list's now-relative expiries [1, -3] are not non-decreasing.
The sortedness was destroyed while the proviso was violated (timer 0 sat
expired for more than 2^31 ticks) and removing that timer restores the
proviso but not the order. -/
theorem C2_counterexample :
    ¬ C2Claim ∧ Reachable c2sBad ∧ Wnd c2sBad ∧
      ¬ List.Pairwise (· ≤ ·)
        (c2sBad.active.map fun tid => sdiff (c2sBad.timers tid).expiry_ticks c2sBad.systicks) := by
  have h1 : Reachable (applyOp initState (Op.init 0 1 [])) :=
    Reachable.step Reachable.refl ⟨by decide, by decide⟩
  have h2 : Reachable (applyOp (applyOp initState (Op.init 0 1 []))
      (Op.init 1 2147483647 [])) :=
    Reachable.step h1 ⟨by decide, by decide⟩
  have h3 : Reachable (applyOp (applyOp (applyOp initState (Op.init 0 1 []))
      (Op.init 1 2147483647 [])) (Op.init 2 1 [])) :=
    Reachable.step h2 ⟨by decide, by decide⟩
  have h4 := @Reachable.step _ (Op.start 0) h3 trivial
  have h5 := @Reachable.step _ (Op.start 1) h4 trivial
  have hA : Reachable c2sA := @Reachable.step _ (Op.handler 4) h5 trivial
  have hB : Reachable c2sB := Reachable_tickN 2147483650 hA
  have h6 := @Reachable.step _ (Op.start 2) hB trivial
  have h7 := @Reachable.step _ (Op.stop 0) h6 trivial
  have hR : Reachable c2sBad := @Reachable.step _ (Op.handler 4) h7 trivial
  have hw : Wnd c2sBad := by
    unfold c2sBad c2sB
    rw [tickN_eq]
    rw [show c2sA.systicks = 0 from by decide]
    rw [Nat.zero_add]
    decide
  have hns : ¬ List.Pairwise (· ≤ ·)
      (c2sBad.active.map fun tid => sdiff (c2sBad.timers tid).expiry_ticks c2sBad.systicks) := by
    unfold c2sBad c2sB
    rw [tickN_eq]
    rw [show c2sA.systicks = 0 from by decide]
    rw [Nat.zero_add]
    decide
  exact ⟨fun hcl => hns (hcl _ hR hw), hR, hw, hns⟩

/-- C2 (amended): along every execution in which, at every observation
point, no listed timer's expiry is more than 2^31 ticks in the past
relative to the then-current tick (reachability `RG`), the active list is
in non-decreasing order of now-relative (int32)(expiry - now) expiry; every
operation preserves this because it preserves sortedness by unbounded
expiry time together with the 2^31 window.  The original claim's proviso
on the observed state alone is not enough (see `C2_counterexample`). -/
theorem C2_active_sorted_by_now_relative_expiry {s : SysState} (hs : RG s) :
    List.Pairwise (· ≤ ·)
      (s.active.map fun tid => sdiff (s.timers tid).expiry_ticks s.systicks) := by
  obtain ⟨hU, hS⟩ := RG_SInv hs
  have hW := RG_Wnd hs
  apply List.pairwise_map.mpr
  apply List.Pairwise.imp_of_mem ?_ hS
  intro x y hx hy hxy
  exact (sdiff_le_iff_of_inWindow (InWindow_of_WndUpper hW hU hx)
    (InWindow_of_WndUpper hW hU hy)).mpr hxy

/-- Witness for the amended C2 on a concrete two-timer execution. -/
theorem C2_active_sorted_by_now_relative_expiry_witness :
    List.Pairwise (· ≤ ·)
      (c2wit.active.map fun tid => sdiff (c2wit.timers tid).expiry_ticks c2wit.systicks) := by
  apply C2_active_sorted_by_now_relative_expiry
  have h1 : RG (applyOp initState (Op.init 0 1 [])) :=
    RG.step RG.refl ⟨by decide, by decide⟩ (by decide)
  have h2 : RG (applyOp (applyOp initState (Op.init 0 1 [])) (Op.init 1 5 [])) :=
    RG.step h1 ⟨by decide, by decide⟩ (by decide)
  have h3 := @RG.step _ (Op.start 0) h2 trivial (by decide)
  have h4 := @RG.step _ (Op.start 1) h3 trivial (by decide)
  exact @RG.step _ (Op.handler 4) h4 trivial (by decide)

end Softimer

namespace Softimer

/-- C3: when the expiry loop of stim_handler fires the expired head timer
`tid` and the timer is still STIM_ENABLE once its callback has returned,
the re-armed expiry is the pre-firing expiry plus the period — computed
from the old expiry, not from `now` — both exactly (in the unbounded
model) and mod 2^32 (as the uint32 field stores it); so each firing
advances the schedule by exactly one period and repeated firings
accumulate no drift. -/
theorem C3_rearm_expiry_is_old_plus_period {s : SysState} {tid : Nat}
    {rest : List Nat} (fuel now : Nat) (ha : s.active = tid :: rest)
    (hexp : sdiff (s.timers tid).expiry_ticks now ≤ 0)
    (hst : ((runCb (fireMid s tid) ((fireMid s tid).timers tid).cb).timers tid).state = true) :
    stim_handler_loop (fuel + 1) now s = stim_handler_loop fuel now (stim_fire now s tid) ∧
      ((stim_fire now s tid).timers tid).expiry_ticks =
        (s.timers tid).expiry_ticks + (s.timers tid).period_ticks ∧
      ((stim_fire now s tid).timers tid).expiry_ticks % U32 =
        ((s.timers tid).expiry_ticks + (s.timers tid).period_ticks) % U32 := by
  have h2 : ((stim_fire now s tid).timers tid).expiry_ticks =
      (s.timers tid).expiry_ticks + (s.timers tid).period_ticks := by
    unfold stim_fire
    dsimp only
    rw [if_pos hst]
    rw [stim_list_add_timers]
    dsimp only
    rw [Function.update_same]
    show ((runCb (fireMid s tid) ((fireMid s tid).timers tid).cb).timers tid).expiry_ticks +
        ((runCb (fireMid s tid) ((fireMid s tid).timers tid).cb).timers tid).period_ticks = _
    rw [runCb_expiry, fireMid_expiry, runCb_period, fireMid_period]
  refine ⟨?_, h2, by rw [h2]⟩
  rw [stim_handler_loop]
  rw [ha]
  dsimp only
  rw [if_pos hexp]

theorem C3_rearm_expiry_is_old_plus_period_witness :
    stim_handler_loop 1 5 c3s = stim_handler_loop 0 5 (stim_fire 5 c3s 0) ∧
      ((stim_fire 5 c3s 0).timers 0).expiry_ticks =
        (c3s.timers 0).expiry_ticks + (c3s.timers 0).period_ticks ∧
      ((stim_fire 5 c3s 0).timers 0).expiry_ticks % U32 =
        ((c3s.timers 0).expiry_ticks + (c3s.timers 0).period_ticks) % U32 := by
  have hc : c3s = { applyOp (applyOp (applyOp initState (Op.init 0 5 [])) (Op.start 0))
      (Op.handler 4) with
      systicks := (applyOp (applyOp (applyOp initState (Op.init 0 5 [])) (Op.start 0))
        (Op.handler 4)).systicks + 5 } := tickN_eq 5 _
  exact @C3_rearm_expiry_is_old_plus_period c3s 0 [] 0 5 (by rw [hc]; decide)
    (by rw [hc]; decide) (by rw [hc]; decide)

/-- C4: within one stim_handler invocation (i) the drain applies exactly
the initially pending commands, in FIFO (oldest-first, i.e. push) order —
the drained state is the left fold of `applyCmd` over the pending list —
(ii) after the drain the queue is empty, and (iii) stim_handler runs its
expiry loop on the fully drained state, so every command pending at the
start of the pass (a Start in particular) is applied before any expiry
comparison; (iv) a successful push appends its command at the end of the
pending list, which is what makes the drain order the push order. -/
theorem C4_drain_fifo_and_before_expiry {s : SysState} (hHT : HT s) :
    stim_cmd_handler STIM_CMD_ARR_SIZE s =
        { applyCmds s (ringList s) with cmdTail := s.cmdHead } ∧
      ringList (stim_cmd_handler STIM_CMD_ARR_SIZE s) = [] ∧
      (∀ fuel, stim_handler fuel s =
        stim_handler_loop fuel (stim_get_systicks (stim_cmd_handler STIM_CMD_ARR_SIZE s))
          (stim_cmd_handler STIM_CMD_ARR_SIZE s)) ∧
      (∀ tid ty s2, stim_cmd_push s tid ty = (0, s2) →
        ringList s2 = ringList s ++ [{ stim := tid, type := ty }]) := by
  have hle : qLen s ≤ STIM_CMD_ARR_SIZE := Nat.le_of_lt (qLen_lt s)
  refine ⟨cmd_handler_spec hHT hle, (cmd_handler_drained hHT hle).2.2.2, fun fuel => rfl, ?_⟩
  intro tid ty s2 hpush
  have hret : (stim_cmd_push s tid ty).1 = 0 := by rw [hpush]
  have hnf := stim_cmd_push_notfull_of_ret hret
  have h := ringList_push tid ty hHT hnf
  rw [hpush] at h
  exact h

/-- C4 witness at a concrete state with one pending command. -/
theorem C4_drain_fifo_and_before_expiry_witness :
    stim_cmd_handler STIM_CMD_ARR_SIZE ((stim_start (stim_init initState 0 5 []).2 0).2) =
        { applyCmds ((stim_start (stim_init initState 0 5 []).2 0).2)
            (ringList ((stim_start (stim_init initState 0 5 []).2 0).2)) with
          cmdTail := ((stim_start (stim_init initState 0 5 []).2 0).2).cmdHead } ∧
      ringList (stim_cmd_handler STIM_CMD_ARR_SIZE
        ((stim_start (stim_init initState 0 5 []).2 0).2)) = [] ∧
      (∀ fuel, stim_handler fuel ((stim_start (stim_init initState 0 5 []).2 0).2) =
        stim_handler_loop fuel (stim_get_systicks (stim_cmd_handler STIM_CMD_ARR_SIZE
            ((stim_start (stim_init initState 0 5 []).2 0).2)))
          (stim_cmd_handler STIM_CMD_ARR_SIZE ((stim_start (stim_init initState 0 5 []).2 0).2))) ∧
      (∀ tid ty s2, stim_cmd_push ((stim_start (stim_init initState 0 5 []).2 0).2) tid ty = (0, s2) →
        ringList s2 = ringList ((stim_start (stim_init initState 0 5 []).2 0).2) ++
          [{ stim := tid, type := ty }]) :=
  C4_drain_fifo_and_before_expiry (by constructor <;> decide)

end Softimer

namespace Softimer

/-! ### Helper lemmas about firing and stopped timers -/

theorem cmd_handler_empty {s : SysState} (fuel : Nat) (h : s.cmdHead = s.cmdTail) :
    stim_cmd_handler fuel s = s := by
  cases fuel with
  | zero => rfl
  | succ fuel =>
    rw [stim_cmd_handler]
    rw [if_pos h]

theorem stim_fire_cb (now : Nat) (s : SysState) (u x : Nat) :
    ((stim_fire now s u).timers x).cb = (s.timers x).cb := by
  unfold stim_fire
  dsimp only
  split
  · rw [stim_list_add_timers]
    dsimp only
    by_cases hx : x = u
    · subst hx
      rw [Function.update_same]
      show ((runCb (fireMid s x) ((fireMid s x).timers x).cb).timers x).cb = _
      rw [runCb_cb, fireMid_cb]
    · rw [Function.update_noteq hx]
      rw [runCb_cb, fireMid_cb]
  · rw [runCb_cb, fireMid_cb]

theorem applyCbAct_state_false {s : SysState} {tid : Nat} {a : CbAct}
    (h : (s.timers tid).state = false) (hne : a ≠ CbAct.start tid) :
    ((applyCbAct s a).timers tid).state = false := by
  cases a with
  | start v =>
    have hv : ¬ (tid = v) := fun he => hne (by rw [he])
    show (((stim_start s v).2).timers tid).state = false
    rw [stim_start_timers_ne hv]
    exact h
  | stop v =>
    by_cases hv : v = tid
    · subst hv
      show (((stim_stop s v).2).timers v).state = false
      unfold stim_stop
      dsimp only
      rw [if_pos h]
      exact h
    · show (((stim_stop s v).2).timers tid).state = false
      rw [stim_stop_timers_ne (fun he => hv he.symm)]
      exact h

theorem runCb_state_false {s : SysState} {tid : Nat} {acts : List CbAct}
    (h : (s.timers tid).state = false) (hna : CbAct.start tid ∉ acts) :
    ((runCb s acts).timers tid).state = false := by
  induction acts generalizing s with
  | nil => exact h
  | cons a l ih =>
    rw [runCb, List.foldl_cons, ← runCb]
    exact ih (applyCbAct_state_false h
        (fun he => hna (he ▸ List.mem_cons_self a l)))
      (fun hm => hna (List.mem_cons_of_mem a hm))

theorem stim_fire_state_false {s : SysState} {tid u : Nat} (now : Nat)
    (hne : tid ≠ u) (h : (s.timers tid).state = false)
    (hcb : CbAct.start tid ∉ (s.timers u).cb) :
    ((stim_fire now s u).timers tid).state = false := by
  have h2 : ((fireMid s u).timers tid).state = false := by
    rw [fireMid_state]
    exact h
  have h3 : ((runCb (fireMid s u) ((fireMid s u).timers u).cb).timers tid).state = false := by
    apply runCb_state_false h2
    rw [fireMid_cb]
    exact hcb
  unfold stim_fire
  dsimp only
  split
  · rw [stim_list_add_timers]
    dsimp only
    rw [Function.update_noteq hne]
    exact h3
  · exact h3

theorem stim_fire_mem_sub {s : SysState} {v x : Nat} {now : Nat}
    (h : x ∈ (stim_fire now s v).active) : x = v ∨ x ∈ s.active := by
  revert h
  unfold stim_fire
  dsimp only
  split
  · intro h
    rw [stim_list_add_mem] at h
    cases h with
    | inl hh => exact Or.inl hh
    | inr hh =>
      have hh2 : x ∈ (runCb (fireMid s v) ((fireMid s v).timers v).cb).active := hh
      rw [runCb_active, fireMid_active] at hh2
      exact Or.inr (List.mem_of_mem_erase hh2)
  · intro h
    have hh2 : x ∈ (runCb (fireMid s v) ((fireMid s v).timers v).cb).active := h
    rw [runCb_active, fireMid_active] at hh2
    exact Or.inr (List.mem_of_mem_erase hh2)

theorem loop_keeps_stopped {fuel now : Nat} {s : SysState} {tid : Nat}
    (h1 : tid ∉ s.active) (h2 : (s.timers tid).state = false)
    (h3 : ∀ u ∈ s.active, u ≠ tid → CbAct.start tid ∉ (s.timers u).cb) :
    tid ∉ (stim_handler_loop fuel now s).active ∧
      ((stim_handler_loop fuel now s).timers tid).state = false := by
  induction fuel generalizing s with
  | zero => exact ⟨h1, h2⟩
  | succ fuel ih =>
    rw [stim_handler_loop]
    cases ha : s.active with
    | nil => exact ⟨h1, h2⟩
    | cons v rest =>
      dsimp only
      split
      · have hvmem : v ∈ s.active := by
          rw [ha]
          exact List.mem_cons_self v rest
        have hvne : tid ≠ v := by
          intro he
          exact h1 (he ▸ hvmem)
        apply ih
        · intro hm
          cases stim_fire_mem_sub hm with
          | inl hh => exact hvne hh
          | inr hh => exact h1 hh
        · exact stim_fire_state_false now hvne h2
            (h3 v hvmem (fun he => hvne he.symm))
        · intro u hu hune
          rw [stim_fire_cb]
          cases stim_fire_mem_sub hu with
          | inl hh =>
            subst hh
            exact h3 u hvmem hune
          | inr hh => exact h3 u hh hune
      · exact ⟨h1, h2⟩

theorem stim_stop_sets_false {s : SysState} {tid : Nat}
    (hst : (s.timers tid).state = true)
    (hroom : (s.cmdHead + 1) % STIM_CMD_ARR_SIZE ≠ s.cmdTail) :
    ((stim_stop s tid).2.timers tid).state = false := by
  unfold stim_stop
  dsimp only
  rw [if_neg (by rw [hst]; simp)]
  rw [stim_cmd_push_succ tid CmdType.stop hroom]
  dsimp only
  rw [if_pos rfl]
  dsimp only
  rw [Function.update_same]

theorem stim_fire_stop_self {s : SysState} {tid : Nat} (now : Nat)
    (hroom : (s.cmdHead + 1) % STIM_CMD_ARR_SIZE ≠ s.cmdTail)
    (hcb : (s.timers tid).cb = [CbAct.stop tid])
    (hst : (s.timers tid).state = true) :
    ((stim_fire now s tid).timers tid).state = false ∧
      (stim_fire now s tid).active = s.active.erase tid := by
  have hrun : runCb (fireMid s tid) ((fireMid s tid).timers tid).cb =
      (stim_stop (fireMid s tid) tid).2 := by
    rw [fireMid_cb, hcb]
    rfl
  have hroom2 : ((fireMid s tid).cmdHead + 1) % STIM_CMD_ARR_SIZE ≠ (fireMid s tid).cmdTail :=
    hroom
  have hst2 : ((fireMid s tid).timers tid).state = true := by
    rw [fireMid_state]
    exact hst
  have hsf : ((runCb (fireMid s tid) ((fireMid s tid).timers tid).cb).timers tid).state = false := by
    rw [hrun]
    exact stim_stop_sets_false hst2 hroom2
  unfold stim_fire
  dsimp only
  rw [if_neg (by rw [hsf]; simp)]
  refine ⟨hsf, ?_⟩
  rw [runCb_active, fireMid_active]

end Softimer

namespace Softimer

theorem C5_counterexample :
    ¬ C5Claim ∧ Reachable c5s ∧ c5s.active = [0] ∧
      sdiff (c5s.timers 0).expiry_ticks c5s.systicks ≤ 0 ∧
      ((fireMid c5s 0).timers 0).state = true := by
  have hc : c5s = { applyOp (applyOp (applyOp initState
      (Op.init 0 1 [CbAct.stop 0])) (Op.start 0)) (Op.handler 4) with
      systicks := (applyOp (applyOp (applyOp initState
        (Op.init 0 1 [CbAct.stop 0])) (Op.start 0)) (Op.handler 4)).systicks + 1 } :=
    tickN_eq 1 _
  have h1 : Reachable (applyOp initState (Op.init 0 1 [CbAct.stop 0])) :=
    Reachable.step Reachable.refl ⟨by decide, by decide⟩
  have h2 := @Reachable.step _ (Op.start 0) h1 trivial
  have h3 := @Reachable.step _ (Op.handler 4) h2 trivial
  have hR : Reachable c5s := Reachable_tickN 1 h3
  have hact : c5s.active = [0] := by
    rw [hc]
    decide
  have hexp : sdiff (c5s.timers 0).expiry_ticks c5s.systicks ≤ 0 := by
    rw [hc]
    decide
  have hmid : ((fireMid c5s 0).timers 0).state = true := by
    rw [hc]
    decide
  refine ⟨?_, hR, hact, hexp, hmid⟩
  intro hcl
  have := hcl c5s hR 0 [] hact hexp
  rw [this] at hmid
  exact Bool.false_ne_true hmid

/-- C5 (amended): when stim_handler fires an expired timer, at the moment
the callback is invoked the record is already unlinked from the active
list but its state field still reads STIM_ENABLE (not Idle, as the
original claim says); and if the callback's stim_stop on its own timer is
accepted (queue not full, as here where the queue is empty at entry), then
after the stim_handler call returns the timer is Idle (STIM_DISABLE) and
has not been reinserted into the active list — provided no other fired
timer's callback restarts it. -/
theorem C5_fired_timer_unlinked_and_stop_self_stays_idle {s : SysState}
    {tid : Nat} {rest : List Nat} (fuel : Nat) (hHT : HT s)
    (hq : s.cmdHead = s.cmdTail) (hND : s.active.Nodup)
    (ha : s.active = tid :: rest)
    (hexp : sdiff (s.timers tid).expiry_ticks (stim_get_systicks s) ≤ 0)
    (hcb : (s.timers tid).cb = [CbAct.stop tid])
    (hst : (s.timers tid).state = true)
    (hnostart : ∀ u ∈ s.active, u ≠ tid → CbAct.start tid ∉ (s.timers u).cb)
    (hfuel : 0 < fuel) :
    tid ∉ (fireMid s tid).active ∧
      ((fireMid s tid).timers tid).state = true ∧
      tid ∉ (stim_handler fuel s).active ∧
      ((stim_handler fuel s).timers tid).state = false := by
  have hroom : (s.cmdHead + 1) % STIM_CMD_ARR_SIZE ≠ s.cmdTail := by
    obtain ⟨hh, ht⟩ := hHT
    simp only [STIM_CMD_ARR_SIZE] at *
    omega
  have hND2 : (tid :: rest).Nodup := by
    rw [← ha]
    exact hND
  have htnr : tid ∉ rest := (List.nodup_cons.mp hND2).1
  have hfire := stim_fire_stop_self (stim_get_systicks s) hroom hcb hst
  obtain ⟨fuel, rfl⟩ : ∃ f, fuel = f + 1 := ⟨fuel - 1, by omega⟩
  have hh : stim_handler (fuel + 1) s = stim_handler_loop (fuel + 1) (stim_get_systicks s) s := by
    unfold stim_handler
    rw [cmd_handler_empty STIM_CMD_ARR_SIZE hq]
  have hloop1 : stim_handler_loop (fuel + 1) (stim_get_systicks s) s =
      stim_handler_loop fuel (stim_get_systicks s) (stim_fire (stim_get_systicks s) s tid) := by
    rw [stim_handler_loop, ha]
    dsimp only
    rw [if_pos hexp]
  have htnm : tid ∉ (stim_fire (stim_get_systicks s) s tid).active := by
    rw [hfire.2, ha, List.erase_cons_head]
    exact htnr
  have hcbs : ∀ u ∈ (stim_fire (stim_get_systicks s) s tid).active, u ≠ tid →
      CbAct.start tid ∉ ((stim_fire (stim_get_systicks s) s tid).timers u).cb := by
    intro u hu hune
    rw [stim_fire_cb]
    rw [hfire.2] at hu
    exact hnostart u (List.mem_of_mem_erase hu) hune
  obtain ⟨hfin1, hfin2⟩ := loop_keeps_stopped htnm hfire.1 hcbs
  refine ⟨?_, ?_, ?_, ?_⟩
  · rw [fireMid_active, ha, List.erase_cons_head]
    exact htnr
  · rw [fireMid_state]
    exact hst
  · rw [hh, hloop1]
    exact hfin1
  · rw [hh, hloop1]
    exact hfin2

/-- Witness for the amended C5 on the concrete stop-self scenario. -/
theorem C5_fired_timer_unlinked_and_stop_self_stays_idle_witness :
    0 ∉ (fireMid c5s 0).active ∧
      ((fireMid c5s 0).timers 0).state = true ∧
      0 ∉ (stim_handler 4 c5s).active ∧
      ((stim_handler 4 c5s).timers 0).state = false := by
  have hc : c5s = { applyOp (applyOp (applyOp initState
      (Op.init 0 1 [CbAct.stop 0])) (Op.start 0)) (Op.handler 4) with
      systicks := (applyOp (applyOp (applyOp initState
        (Op.init 0 1 [CbAct.stop 0])) (Op.start 0)) (Op.handler 4)).systicks + 1 } :=
    tickN_eq 1 _
  exact @C5_fired_timer_unlinked_and_stop_self_stays_idle c5s 0 [] 4
    (by constructor
        · rw [hc]; decide
        · rw [hc]; decide)
    (by rw [hc]; decide) (by rw [hc]; decide) (by rw [hc]; decide)
    (by rw [hc]; decide) (by rw [hc]; decide) (by rw [hc]; decide)
    (by rw [hc]; decide) (by decide)

end Softimer

namespace Softimer

/-! ### Frame lemmas for a pass whose callbacks are all null -/

theorem cmd_handler_cb (fuel : Nat) (s : SysState) (u : Nat) :
    ((stim_cmd_handler fuel s).timers u).cb = (s.timers u).cb := by
  induction fuel generalizing s with
  | zero => rfl
  | succ fuel ih =>
    rw [stim_cmd_handler]
    split
    · rfl
    · rw [ih, applyCmd_cb]

theorem cmd_handler_state (fuel : Nat) (s : SysState) (u : Nat) :
    ((stim_cmd_handler fuel s).timers u).state = ((s.timers u)).state := by
  induction fuel generalizing s with
  | zero => rfl
  | succ fuel ih =>
    rw [stim_cmd_handler]
    split
    · rfl
    · rw [ih, applyCmd_state]

@[simp] theorem fireMid_cmdHead (s : SysState) (tid : Nat) :
    (fireMid s tid).cmdHead = s.cmdHead := rfl

@[simp] theorem fireMid_cmdTail (s : SysState) (tid : Nat) :
    (fireMid s tid).cmdTail = s.cmdTail := rfl

@[simp] theorem fireMid_cmdArr (s : SysState) (tid : Nat) :
    (fireMid s tid).cmdArr = s.cmdArr := rfl

theorem stim_fire_cmdTail (now : Nat) (s : SysState) (v : Nat) :
    (stim_fire now s v).cmdTail = s.cmdTail := by
  unfold stim_fire
  dsimp only
  split
  · simp
  · simp

theorem fire_nilcb {s : SysState} {v : Nat} (now : Nat)
    (hcb : (s.timers v).cb = []) :
    (stim_fire now s v).cmdHead = s.cmdHead ∧
      ∀ x, ((stim_fire now s v).timers x).state = (s.timers x).state := by
  have hrun : runCb (fireMid s v) ((fireMid s v).timers v).cb = fireMid s v := by
    rw [fireMid_cb, hcb]
    rfl
  unfold stim_fire
  dsimp only
  rw [hrun]
  split
  · constructor
    · simp
    · intro x
      rw [stim_list_add_timers]
      dsimp only
      by_cases hx : x = v
      · subst hx
        rw [Function.update_same]
        show ((fireMid s x).timers x).state = _
        rw [fireMid_state]
      · rw [Function.update_noteq hx]
        rw [fireMid_state]
  · exact ⟨rfl, fun x => fireMid_state s v x⟩

theorem loop_nilcb {fuel now : Nat} {s : SysState}
    (hcb : ∀ u, (s.timers u).cb = []) :
    (stim_handler_loop fuel now s).cmdHead = s.cmdHead ∧
      (stim_handler_loop fuel now s).cmdTail = s.cmdTail ∧
      ∀ x, ((stim_handler_loop fuel now s).timers x).state = (s.timers x).state := by
  induction fuel generalizing s with
  | zero => exact ⟨rfl, rfl, fun x => rfl⟩
  | succ fuel ih =>
    rw [stim_handler_loop]
    cases ha : s.active with
    | nil => exact ⟨rfl, rfl, fun x => rfl⟩
    | cons v rest =>
      dsimp only
      split
      · have hcb2 : ∀ u, ((stim_fire now s v).timers u).cb = [] := by
          intro u
          rw [stim_fire_cb]
          exact hcb u
        obtain ⟨ihh, iht, ihs⟩ := ih hcb2
        obtain ⟨fh, fs⟩ := fire_nilcb now (hcb v)
        refine ⟨?_, ?_, ?_⟩
        · rw [ihh, fh]
        · rw [iht, stim_fire_cmdTail]
        · intro x
          rw [ihs x, fs x]
      · exact ⟨rfl, rfl, fun x => rfl⟩

/-! ### The C6 scenario: alternating start/stop pushes on one timer -/

theorem c6q_cb : ∀ n u, ((c6q n).timers u).cb = [] := by
  intro n
  induction n with
  | zero =>
    intro u
    show ((stim_init initState 0 5 []).2.timers u).cb = []
    unfold stim_init
    rw [if_neg (by decide)]
    dsimp only
    by_cases hu : u = 0
    · subst hu
      rw [Function.update_same]
    · rw [Function.update_noteq hu]
      rfl
  | succ n ih =>
    intro u
    show ((if n % 2 = 0 then (stim_start (c6q n) 0).2
        else (stim_stop (c6q n) 0).2).timers u).cb = []
    split
    · rw [stim_start_cb]
      exact ih u
    · rw [stim_stop_cb]
      exact ih u

set_option maxHeartbeats 2000000 in
theorem stim_handler_eq (fuel : Nat) (s : SysState) :
    stim_handler fuel s =
      stim_handler_loop fuel
        (stim_get_systicks (stim_cmd_handler STIM_CMD_ARR_SIZE s))
        (stim_cmd_handler STIM_CMD_ARR_SIZE s) := rfl

theorem C6_counterexample :
    ¬ C6Claim ∧ (∀ n < STIM_CMD_ARR_SIZE - 1, c6ret n = 0) ∧
      c6ret (STIM_CMD_ARR_SIZE - 1) = -1 := by
  refine ⟨?_, by decide, by decide⟩
  intro hcl
  have := hcl (STIM_CMD_ARR_SIZE - 1) (by decide)
  rw [show c6ret (STIM_CMD_ARR_SIZE - 1) = -1 from by decide] at this
  exact absurd this (by decide)

set_option maxHeartbeats 2000000 in
/-- C6 (amended): starting from an empty command queue, exactly
STIM_CMD_ARR_SIZE - 1 = 15 start/stop commands can be successfully
enqueued (the ring buffer keeps one slot empty to distinguish full from
empty); the 16th attempt fails with -1; any state with 15 pending
commands rejects a push outright; and after a stim_handler call fully
drains the queue, a subsequent stop request is accepted again. -/
theorem C6_capacity_is_size_minus_one :
    (∀ n < STIM_CMD_ARR_SIZE - 1, c6ret n = 0) ∧
      c6ret (STIM_CMD_ARR_SIZE - 1) = -1 ∧
      qLen (c6q (STIM_CMD_ARR_SIZE - 1)) = STIM_CMD_ARR_SIZE - 1 ∧
      (∀ s : SysState, HT s → qLen s = STIM_CMD_ARR_SIZE - 1 →
        ∀ tid ty, stim_cmd_push s tid ty = (-1, s)) ∧
      (stim_stop (stim_handler STIM_CMD_ARR_SIZE (c6q (STIM_CMD_ARR_SIZE - 1))) 0).1 = 0 := by
  have hHT : HT (c6q (STIM_CMD_ARR_SIZE - 1)) := by
    constructor
    · decide
    · decide
  have hq15 : qLen (c6q (STIM_CMD_ARR_SIZE - 1)) = STIM_CMD_ARR_SIZE - 1 := by decide
  refine ⟨by decide, by decide, hq15, ?_, ?_⟩
  · intro s hHTs hqs tid ty
    apply stim_cmd_push_fail
    obtain ⟨hh, ht⟩ := hHTs
    unfold qLen at hqs
    simp only [STIM_CMD_ARR_SIZE] at *
    omega
  · have hdr := cmd_handler_drained (s := c6q (STIM_CMD_ARR_SIZE - 1)) hHT
      (Nat.le_of_lt (qLen_lt _))
    have hcbs : ∀ u, ((stim_cmd_handler STIM_CMD_ARR_SIZE
        (c6q (STIM_CMD_ARR_SIZE - 1))).timers u).cb = [] := by
      intro u
      rw [cmd_handler_cb]
      exact c6q_cb _ u
    obtain ⟨hlh, hlt, hls⟩ := @loop_nilcb STIM_CMD_ARR_SIZE (stim_get_systicks
      (stim_cmd_handler STIM_CMD_ARR_SIZE (c6q (STIM_CMD_ARR_SIZE - 1))))
      (stim_cmd_handler STIM_CMD_ARR_SIZE (c6q (STIM_CMD_ARR_SIZE - 1))) hcbs
    have hstate : ((stim_handler STIM_CMD_ARR_SIZE (c6q (STIM_CMD_ARR_SIZE - 1))).timers 0).state = true := by
      rw [stim_handler_eq, hls 0, cmd_handler_state]
      decide
    have hheadL : (stim_handler STIM_CMD_ARR_SIZE (c6q (STIM_CMD_ARR_SIZE - 1))).cmdHead =
        STIM_CMD_ARR_SIZE - 1 := by
      rw [stim_handler_eq, hlh, hdr.1]
      decide
    have htailL : (stim_handler STIM_CMD_ARR_SIZE (c6q (STIM_CMD_ARR_SIZE - 1))).cmdTail =
        STIM_CMD_ARR_SIZE - 1 := by
      rw [stim_handler_eq, hlt, hdr.2.1]
      decide
    unfold stim_stop
    dsimp only
    rw [if_neg (by rw [hstate]; simp)]
    rw [stim_cmd_push_succ 0 CmdType.stop (by rw [hheadL, htailL]; decide)]
    rfl

end Softimer

namespace Softimer

/-- Witness instantiating the universally-quantified full-queue rejection
clause of the amended C6 at a concrete full state. -/
theorem C6_capacity_is_size_minus_one_witness :
    stim_cmd_push (c6q (STIM_CMD_ARR_SIZE - 1)) 1 CmdType.start =
      (-1, c6q (STIM_CMD_ARR_SIZE - 1)) :=
  C6_capacity_is_size_minus_one.2.2.2.1 (c6q (STIM_CMD_ARR_SIZE - 1))
    ⟨by decide, by decide⟩ (by decide) 1 CmdType.start

/-- C7: with the command queue full, stim_start on an Idle timer returns -1
and leaves the whole state — the timer's state field in particular —
unchanged; symmetrically, stim_stop on an Active timer returns -1 and
changes nothing.  The state flip and the queue push succeed or fail as a
unit, and a rejected request is never reported as success. -/
theorem C7_full_queue_rejects_and_preserves_state {s : SysState} {tid : Nat}
    (hfull : (s.cmdHead + 1) % STIM_CMD_ARR_SIZE = s.cmdTail) :
    ((s.timers tid).state = false → stim_start s tid = (-1, s)) ∧
      ((s.timers tid).state = true → stim_stop s tid = (-1, s)) := by
  constructor
  · intro hst
    unfold stim_start
    dsimp only
    rw [if_neg (by rw [hst]; simp)]
    rw [stim_cmd_push_fail tid CmdType.start hfull]
    rfl
  · intro hst
    unfold stim_stop
    dsimp only
    rw [if_neg (by rw [hst]; simp)]
    rw [stim_cmd_push_fail tid CmdType.stop hfull]
    rfl

/-- Witness for C7 on the concrete full queue of the C6 scenario. -/
theorem C7_full_queue_rejects_and_preserves_state_witness :
    stim_start (c6q (STIM_CMD_ARR_SIZE - 1)) 1 = (-1, c6q (STIM_CMD_ARR_SIZE - 1)) ∧
      stim_stop (c6q (STIM_CMD_ARR_SIZE - 1)) 0 = (-1, c6q (STIM_CMD_ARR_SIZE - 1)) :=
  ⟨(@C7_full_queue_rejects_and_preserves_state (c6q (STIM_CMD_ARR_SIZE - 1)) 1
      (by decide)).1 (by decide),
    (@C7_full_queue_rejects_and_preserves_state (c6q (STIM_CMD_ARR_SIZE - 1)) 0
      (by decide)).2 (by decide)⟩

/-! ### The insert position of stim_list_add -/

theorem listAddAux_eq_takeDrop (timers : Nat → Stim) (texp now : Nat)
    (l : List Nat) (tid : Nat) :
    listAddAux timers texp now l tid =
      l.takeWhile (fun e => decide (sdiff (timers e).expiry_ticks now ≤ sdiff texp now)) ++
        tid :: l.dropWhile (fun e => decide (sdiff (timers e).expiry_ticks now ≤ sdiff texp now)) := by
  induction l with
  | nil => rfl
  | cons e rest ih =>
    rw [listAddAux]
    by_cases h : sdiff (timers e).expiry_ticks now ≤ sdiff texp now
    · rw [if_neg (not_lt.mpr h)]
      rw [ih]
      simp [List.takeWhile_cons, List.dropWhile_cons, h]
    · rw [if_pos (not_le.mp h)]
      simp [List.takeWhile_cons, List.dropWhile_cons, h]

theorem dropWhile_all_gt {timers : Nat → Stim} {texp now : Nat} :
    ∀ {l : List Nat},
      l.Pairwise (fun u v => sdiff (timers u).expiry_ticks now ≤ sdiff (timers v).expiry_ticks now) →
      ∀ e ∈ l.dropWhile (fun x => decide (sdiff (timers x).expiry_ticks now ≤ sdiff texp now)),
        sdiff texp now < sdiff (timers e).expiry_ticks now := by
  intro l
  induction l with
  | nil =>
    intro _ e he
    exact absurd he (List.not_mem_nil e)
  | cons a rest ih =>
    intro hp e he
    rw [List.dropWhile_cons] at he
    by_cases h : sdiff (timers a).expiry_ticks now ≤ sdiff texp now
    · simp only [decide_eq_true h, if_true] at he
      exact ih (List.pairwise_cons.mp hp).2 e he
    · simp only [decide_eq_false h, if_false] at he
      cases List.mem_cons.mp he with
      | inl hh =>
        subst hh
        exact not_le.mp h
      | inr hh =>
        have := (List.pairwise_cons.mp hp).1 e hh
        exact lt_of_lt_of_le (not_le.mp h) this

/-- C8: on a sorted active list, stim_list_add splices the new timer after
every entry whose now-relative expiry is less than or equal to the new
timer's (FIFO among equal deadlines) and before the first entry whose
now-relative expiry is strictly greater; every entry left of the insertion
point compares ≤ and, when the list is sorted, every entry right of it
compares strictly greater. -/
theorem C8_insert_after_le_before_gt {s : SysState} {tid : Nat} (now : Nat)
    (hni : tid ∉ s.active)
    (hsort : s.active.Pairwise
      (fun u v => sdiff (s.timers u).expiry_ticks now ≤ sdiff (s.timers v).expiry_ticks now)) :
    (stim_list_add s tid now).active =
        s.active.takeWhile
          (fun e => decide (sdiff (s.timers e).expiry_ticks now ≤ sdiff (s.timers tid).expiry_ticks now)) ++
          tid :: s.active.dropWhile
            (fun e => decide (sdiff (s.timers e).expiry_ticks now ≤ sdiff (s.timers tid).expiry_ticks now)) ∧
      (∀ e ∈ s.active.takeWhile
          (fun e => decide (sdiff (s.timers e).expiry_ticks now ≤ sdiff (s.timers tid).expiry_ticks now)),
        sdiff (s.timers e).expiry_ticks now ≤ sdiff (s.timers tid).expiry_ticks now) ∧
      (∀ e ∈ s.active.dropWhile
          (fun e => decide (sdiff (s.timers e).expiry_ticks now ≤ sdiff (s.timers tid).expiry_ticks now)),
        sdiff (s.timers tid).expiry_ticks now < sdiff (s.timers e).expiry_ticks now) := by
  refine ⟨?_, ?_, ?_⟩
  · unfold stim_list_add
    rw [if_neg hni]
    exact listAddAux_eq_takeDrop s.timers (s.timers tid).expiry_ticks now s.active tid
  · intro e he
    have := List.mem_takeWhile_imp he
    exact of_decide_eq_true this
  · exact dropWhile_all_gt hsort

/-- Witness for C8 on a concrete sorted three-timer list. -/
theorem C8_insert_after_le_before_gt_witness :
    (stim_list_add c2sA 2 0).active =
        c2sA.active.takeWhile
          (fun e => decide (sdiff (c2sA.timers e).expiry_ticks 0 ≤ sdiff (c2sA.timers 2).expiry_ticks 0)) ++
          2 :: c2sA.active.dropWhile
            (fun e => decide (sdiff (c2sA.timers e).expiry_ticks 0 ≤ sdiff (c2sA.timers 2).expiry_ticks 0)) ∧
      (∀ e ∈ c2sA.active.takeWhile
          (fun e => decide (sdiff (c2sA.timers e).expiry_ticks 0 ≤ sdiff (c2sA.timers 2).expiry_ticks 0)),
        sdiff (c2sA.timers e).expiry_ticks 0 ≤ sdiff (c2sA.timers 2).expiry_ticks 0) ∧
      (∀ e ∈ c2sA.active.dropWhile
          (fun e => decide (sdiff (c2sA.timers e).expiry_ticks 0 ≤ sdiff (c2sA.timers 2).expiry_ticks 0)),
        sdiff (c2sA.timers 2).expiry_ticks 0 < sdiff (c2sA.timers e).expiry_ticks 0) :=
  C8_insert_after_le_before_gt 0 (by decide) (by decide)

end Softimer

namespace Softimer

/-! ### Support for the set_period; start; dispatch round trip -/

theorem stim_set_period_valid {s : SysState} {tid p : Nat}
    (h1 : 1 ≤ p) (h2 : p ≤ STIM_MAX_TICKS) :
    stim_set_period_ticks s tid p =
      { s with timers := Function.update s.timers tid ({ s.timers tid with period_ticks := p }) } := by
  unfold stim_set_period_ticks
  rw [if_neg]
  rintro (h | h)
  · exact absurd h (not_lt.mpr h2)
  · omega

theorem stim_start_succ {s : SysState} {tid : Nat}
    (hst : (s.timers tid).state = false)
    (hnf : (s.cmdHead + 1) % STIM_CMD_ARR_SIZE ≠ s.cmdTail) :
    (stim_start s tid).2 =
      { s with
        timers := Function.update s.timers tid ({ s.timers tid with state := true })
        cmdArr := Function.update s.cmdArr s.cmdHead { stim := tid, type := CmdType.start }
        cmdHead := (s.cmdHead + 1) % STIM_CMD_ARR_SIZE } := by
  unfold stim_start
  dsimp only
  rw [if_neg (by rw [hst]; simp)]
  rw [stim_cmd_push_succ tid CmdType.start hnf]
  rfl

theorem ringList_length (s : SysState) : (ringList s).length = qLen s := by
  simp [ringList]

theorem ringList_start_succ {s : SysState} {tid : Nat} (hHT : HT s)
    (hst : (s.timers tid).state = false)
    (hnf : (s.cmdHead + 1) % STIM_CMD_ARR_SIZE ≠ s.cmdTail) :
    ringList ((stim_start s tid).2) =
      ringList s ++ [{ stim := tid, type := CmdType.start }] := by
  have hp := ringList_push tid CmdType.start hHT hnf
  rw [stim_cmd_push_succ tid CmdType.start hnf] at hp
  rw [stim_start_succ hst hnf]
  exact hp

theorem applyCmds_timers_ne {s : SysState} {l : List Cmd} {u : Nat}
    (h : ∀ c ∈ l, c.stim ≠ u) :
    (applyCmds s l).timers u = s.timers u := by
  induction l generalizing s with
  | nil => rfl
  | cons c r ih =>
    rw [applyCmds_cons, ih (fun d hd => h d (List.mem_cons_of_mem c hd))]
    exact applyCmd_timers_ne (h c (List.mem_cons_self c r)).symm

theorem applyCmds_systicks (s : SysState) (l : List Cmd) :
    (applyCmds s l).systicks = s.systicks := by
  induction l generalizing s with
  | nil => rfl
  | cons c r ih => rw [applyCmds_cons, ih, applyCmd_systicks]

theorem applyCmds_append (s : SysState) (l1 l2 : List Cmd) :
    applyCmds s (l1 ++ l2) = applyCmds (applyCmds s l1) l2 := by
  unfold applyCmds
  exact List.foldl_append applyCmd s l1 l2

theorem applyCmd_start_expiry (s : SysState) (tid : Nat) :
    ((applyCmd s { stim := tid, type := CmdType.start }).timers tid).expiry_ticks =
      (s.timers tid).period_ticks + s.systicks := by
  unfold applyCmd stim_get_systicks
  dsimp only
  rw [stim_list_add_timers]
  dsimp only
  rw [Function.update_same]

theorem stim_fire_expiry_ne {s : SysState} {u tid : Nat} (now : Nat) (hne : tid ≠ u) :
    ((stim_fire now s u).timers tid).expiry_ticks = (s.timers tid).expiry_ticks := by
  unfold stim_fire
  dsimp only
  split
  · rw [stim_list_add_timers]
    dsimp only
    rw [Function.update_noteq hne]
    rw [runCb_expiry, fireMid_expiry]
  · rw [runCb_expiry, fireMid_expiry]

theorem loop_keeps_expiry {fuel now : Nat} {s : SysState} {tid : Nat}
    (h : 0 < sdiff (s.timers tid).expiry_ticks now) :
    ((stim_handler_loop fuel now s).timers tid).expiry_ticks =
      (s.timers tid).expiry_ticks := by
  induction fuel generalizing s with
  | zero => rfl
  | succ fuel ih =>
    rw [stim_handler_loop]
    cases hact : s.active with
    | nil => rfl
    | cons v rest =>
      dsimp only
      by_cases hexp : sdiff (s.timers v).expiry_ticks now ≤ 0
      · rw [if_pos hexp]
        have hne : tid ≠ v := by
          intro he
          rw [he] at h
          exact absurd hexp (not_le.mpr h)
        have hpres := stim_fire_expiry_ne (s := s) (u := v) now hne
        have h2 : 0 < sdiff ((stim_fire now s v).timers tid).expiry_ticks now := by
          rw [hpres]; exact h
        rw [ih h2, hpres]
      · rw [if_neg hexp]

end Softimer

namespace Softimer

theorem applyCmds_singleton (s : SysState) (c : Cmd) :
    applyCmds s [c] = applyCmd s c := rfl

/-- C9: starting an Idle timer after setting a valid period p, then running a
dispatch whose tick read yields now = N (the unchanged counter value), leaves
the timer's expiry equal to N + p, hence equal to (N + p) mod 2^32 on the
32-bit field. -/
theorem C9_set_period_start_dispatch_expiry {s : SysState} {tid p : Nat} (fuel : Nat)
    (hHT : HT s)
    (hnf : (s.cmdHead + 1) % STIM_CMD_ARR_SIZE ≠ s.cmdTail)
    (hst : (s.timers tid).state = false)
    (hnp : ∀ c ∈ ringList s, c.stim ≠ tid)
    (hp1 : 1 ≤ p) (hp2 : p ≤ STIM_MAX_TICKS) :
    ((stim_handler fuel ((stim_start (stim_set_period_ticks s tid p) tid).2)).timers tid).expiry_ticks
        = s.systicks + p ∧
      ((stim_handler fuel ((stim_start (stim_set_period_ticks s tid p) tid).2)).timers tid).expiry_ticks % U32
        = (s.systicks + p) % U32 := by
  have hval := @stim_set_period_valid s tid p hp1 hp2
  have h1t : (stim_set_period_ticks s tid p).timers tid =
      { s.timers tid with period_ticks := p } := by
    rw [hval]; simp
  have h1st : ((stim_set_period_ticks s tid p).timers tid).state = false := by
    rw [h1t]; exact hst
  have h1per : ((stim_set_period_ticks s tid p).timers tid).period_ticks = p := by
    rw [h1t]
  have h1HT : HT (stim_set_period_ticks s tid p) := by
    rw [hval]; exact hHT
  have h1nf : ((stim_set_period_ticks s tid p).cmdHead + 1) % STIM_CMD_ARR_SIZE ≠
      (stim_set_period_ticks s tid p).cmdTail := by
    rw [hval]; exact hnf
  have h1ring : ringList (stim_set_period_ticks s tid p) = ringList s := by
    rw [hval]; rfl
  have h1sys : (stim_set_period_ticks s tid p).systicks = s.systicks := by
    rw [hval]
  have h2ring : ringList ((stim_start (stim_set_period_ticks s tid p) tid).2) =
      ringList s ++ [{ stim := tid, type := CmdType.start }] := by
    rw [ringList_start_succ h1HT h1st h1nf, h1ring]
  have h2HT : HT ((stim_start (stim_set_period_ticks s tid p) tid).2) :=
    HT_start tid h1HT
  have hqlt : qLen s < STIM_CMD_ARR_SIZE := by
    unfold qLen
    exact Nat.mod_lt _ (by decide)
  have h2q : qLen ((stim_start (stim_set_period_ticks s tid p) tid).2) = qLen s + 1 := by
    rw [← ringList_length, h2ring, List.length_append, ringList_length]
    rfl
  have h2sys : ((stim_start (stim_set_period_ticks s tid p) tid).2).systicks = s.systicks := by
    rw [stim_start_systicks, h1sys]
  have h2per : (((stim_start (stim_set_period_ticks s tid p) tid).2).timers tid).period_ticks = p := by
    rw [stim_start_period]; exact h1per
  have hfuel : qLen ((stim_start (stim_set_period_ticks s tid p) tid).2) ≤ STIM_CMD_ARR_SIZE := by
    rw [h2q]; exact hqlt
  have hD := cmd_handler_spec h2HT hfuel
  have hDrain_t : ((stim_cmd_handler STIM_CMD_ARR_SIZE
      ((stim_start (stim_set_period_ticks s tid p) tid).2)).timers tid).expiry_ticks =
      p + s.systicks := by
    rw [hD]
    dsimp only
    rw [h2ring, applyCmds_append, applyCmds_singleton, applyCmd_start_expiry]
    rw [applyCmds_timers_ne hnp, applyCmds_systicks, h2sys, h2per]
  have hDsys : (stim_cmd_handler STIM_CMD_ARR_SIZE
      ((stim_start (stim_set_period_ticks s tid p) tid).2)).systicks = s.systicks := by
    rw [cmd_handler_systicks, h2sys]
  have hsd : sdiff (p + s.systicks) s.systicks = (p : Int) := by
    have hw1 : -(HALF : Int) ≤ ((p + s.systicks : Nat) : Int) - (s.systicks : Nat) := by
      simp only [HALF]; push_cast; omega
    have hw2 : ((p + s.systicks : Nat) : Int) - (s.systicks : Nat) ≤ (HALF : Int) - 1 := by
      simp only [STIM_MAX_TICKS] at hp2
      simp only [HALF]; push_cast; omega
    rw [sdiff_eq_of_window hw1 hw2]
    push_cast; ring
  have hpos : 0 < sdiff ((stim_cmd_handler STIM_CMD_ARR_SIZE
      ((stim_start (stim_set_period_ticks s tid p) tid).2)).timers tid).expiry_ticks
      (stim_get_systicks (stim_cmd_handler STIM_CMD_ARR_SIZE
        ((stim_start (stim_set_period_ticks s tid p) tid).2))) := by
    unfold stim_get_systicks
    rw [hDrain_t, hDsys, hsd]
    exact_mod_cast hp1
  constructor
  · rw [stim_handler_eq, loop_keeps_expiry hpos, hDrain_t, Nat.add_comm p s.systicks]
  · rw [stim_handler_eq, loop_keeps_expiry hpos, hDrain_t, Nat.add_comm p s.systicks]

/-- Witness for C9 at the initial state with period 5: the round trip leaves
expiry 0 + 5 = 5. -/
theorem C9_set_period_start_dispatch_expiry_witness :
    ((stim_handler STIM_CMD_ARR_SIZE
        ((stim_start (stim_set_period_ticks initState 0 5) 0).2)).timers 0).expiry_ticks
        = initState.systicks + 5 ∧
      ((stim_handler STIM_CMD_ARR_SIZE
        ((stim_start (stim_set_period_ticks initState 0 5) 0).2)).timers 0).expiry_ticks % U32
        = (initState.systicks + 5) % U32 :=
  C9_set_period_start_dispatch_expiry STIM_CMD_ARR_SIZE (by exact ⟨by decide, by decide⟩)
    (by decide) (by decide) (by decide) (by decide) (by decide)

end Softimer

namespace Softimer

/-- C10: stim_set_period_ticks with p = 0 or p > STIM_MAX_TICKS is a silent
no-op that returns the state unchanged — every field of every timer
included — while with 1 ≤ p ≤ STIM_MAX_TICKS it sets the timer's
period_ticks to p and changes no other field of the timer, no other timer,
and nothing else in the state. -/
theorem C10_set_period_guard_and_frame (s : SysState) (tid p : Nat) :
    ((p = 0 ∨ p > STIM_MAX_TICKS) → stim_set_period_ticks s tid p = s) ∧
      (1 ≤ p → p ≤ STIM_MAX_TICKS →
        ((stim_set_period_ticks s tid p).timers tid).period_ticks = p ∧
          ((stim_set_period_ticks s tid p).timers tid).cb = (s.timers tid).cb ∧
          ((stim_set_period_ticks s tid p).timers tid).expiry_ticks = (s.timers tid).expiry_ticks ∧
          ((stim_set_period_ticks s tid p).timers tid).count = (s.timers tid).count ∧
          ((stim_set_period_ticks s tid p).timers tid).state = (s.timers tid).state ∧
          (∀ u, u ≠ tid → (stim_set_period_ticks s tid p).timers u = s.timers u) ∧
          (stim_set_period_ticks s tid p).active = s.active ∧
          (stim_set_period_ticks s tid p).cmdArr = s.cmdArr ∧
          (stim_set_period_ticks s tid p).cmdHead = s.cmdHead ∧
          (stim_set_period_ticks s tid p).cmdTail = s.cmdTail ∧
          (stim_set_period_ticks s tid p).systicks = s.systicks) := by
  constructor
  · intro h
    unfold stim_set_period_ticks
    rw [if_pos]
    rcases h with h | h
    · exact Or.inr h
    · exact Or.inl h
  · intro h1 h2
    have hval := @stim_set_period_valid s tid p h1 h2
    refine ⟨?_, ?_, ?_, ?_, ?_, ?_, ?_, ?_, ?_, ?_, ?_⟩
    · rw [hval]; simp
    · rw [hval]; simp
    · rw [hval]; simp
    · rw [hval]; simp
    · rw [hval]; simp
    · intro u hu
      rw [hval]
      simp [Function.update_noteq hu]
    · rw [hval]
    · rw [hval]
    · rw [hval]
    · rw [hval]
    · rw [hval]

/-- Witness for C10: the guard rejects p = 0 exactly, and p = 7 lands in
period_ticks. -/
theorem C10_set_period_guard_and_frame_witness :
    stim_set_period_ticks initState 0 0 = initState ∧
      ((stim_set_period_ticks initState 0 7).timers 0).period_ticks = 7 :=
  ⟨(C10_set_period_guard_and_frame initState 0 0).1 (Or.inl rfl),
    ((C10_set_period_guard_and_frame initState 0 7).2 (by decide) (by decide)).1⟩

end Softimer
